import Mathlib

/-
Verification development for the fluid simulator repository
(include/simulator.h, include/vector_field.h, include/fixed.h,
include/config.h, src/main.cpp).

The engine is embedded shallowly, following the dynamic path of
FluidSimulator (template parameters N = K = 0, use_static = false), which
is the path instantiated by createSimulatorInstance in config.h.  The
three numeric slots PType, VType, VFType are value-semantic scalars with
field operations and a total order; the embedding instantiates them with
Rat, which satisfies the numeric contract the engine relies on.  Machine
integers size_t and int are modelled by Nat; the tick counter UT is only
compared and incremented, and every last_use write happens with UT at
least 2, so Nat subtraction agrees with the source arithmetic at every
reachable call.  Recursive routines (propagate_flow, propagate_stop,
propagate_move) carry an explicit fuel argument and return Option; none
models fuel exhaustion.  Out-of-range reads of the character field are
given the default value of a wall character; the places where the C++
source actually performs such reads (undefined behaviour) are modelled
separately by explicit read-set definitions (gravitySouthReads,
moveProbReads) and are the subject of the bounds claims.
-/

/-- The byte read by the PRNG uniform draw lies in the unit interval;
runs are parameterised by the stream of draws, and this predicate records
the contract of uniform_real_distribution(0.0, 1.0). -/
def RngOk (rng : Nat → Rat) : Prop := ∀ n, 0 ≤ rng n ∧ rng n < 1

/-- The fixed four-element offset table, simulator.h line 63:
{{-1, 0}, {1, 0}, {0, -1}, {0, 1}}. -/
def deltasL : List (Int × Int) := [(-1, 0), (1, 0), (0, -1), (0, 1)]

/-- deltas[i], with the C++ out-of-range access replaced by a default. -/
def deltaAt (i : Nat) : Int × Int := deltasL.getD i (0, 0)

/-- Index of the reversed offset (-dx, -dy) in the table, as resolved by
the linear search in VectorField::get when phase B reads the neighbor
velocity with the negated delta. -/
def revIdx : Nat → Nat
  | 0 => 1
  | 1 => 0
  | 2 => 3
  | 3 => 2
  | n => n

/-- Error kinds of the directional field (spec section 7). -/
inductive FieldErr where
  | InvalidDelta
  | OutOfBounds
deriving DecidableEq, Repr

/-- Delta resolution by linear search, std::find over the table; when the
pair is absent this is the one-past-the-end distance 4
(vector_field.h lines 46 and 52). -/
def findDeltaIdx (dx dy : Int) : Nat := deltasL.findIdx (fun pr => pr == (dx, dy))

/-- VectorField::add delta handling (vector_field.h lines 31 to 49): look
the offset up in the table; on a miss throw the invalid-delta error, on a
hit use the index of the offset. -/
def addResolve (dx dy : Int) : Except FieldErr Nat :=
  if (dx, dy) ∈ deltasL then Except.ok (findDeltaIdx dx dy)
  else Except.error FieldErr.InvalidDelta

/-- VectorField::get delta handling (vector_field.h lines 51 to 54): the
distance from begin to the std::find result is used as the array index
with no membership check, so a miss resolves to index 4, one past the end
of the length-4 per-cell array. -/
def getResolve (dx dy : Int) : Nat := findDeltaIdx dx dy

/-- Arithmetic (sign-preserving) right shift on two-complement integers,
the C++ semantics of the shift in the fixed-point product
(fixed.h line 57). -/
def asr (a : Int) (k : Nat) : Int :=
  match a with
  | Int.ofNat n => Int.ofNat (n >>> k)
  | Int.negSucc n => Int.negSucc (n >>> k)

/-- Raw value of the fixed-point product, fixed.h line 57:
from_raw((a.v * b.v) >> K). -/
def fixedMulRaw (K : Nat) (a b : Int) : Int := asr (a * b) K

/-- Raw value of the fixed-point quotient, fixed.h line 62:
from_raw((a.v << K) / b.v); the left shift is multiplication by 2 ^ K and
the C++ integer division truncates toward zero. -/
def fixedDivRaw (K : Nat) (a b : Int) : Int := Int.tdiv (a * 2 ^ K) b

/-- Token kinds of the lines and fields of the checkpoint stream. -/
inductive ChkTok where
  | dims
  | grav
  | fieldRow
  | presPair
  | vel
  | ut
  | rhoLine
deriving DecidableEq, Repr

/-- The sequence of fields written by save_state (simulator.h lines 728
to 757): dimensions, gravity, the R field rows, then only the non-default
density overrides.  No pressures, no velocities, no tick counter. -/
def saveFormat (R overrides : Nat) : List ChkTok :=
  ChkTok.dims :: ChkTok.grav ::
    (List.replicate R ChkTok.fieldRow ++ List.replicate overrides ChkTok.rhoLine)

/-- The sequence of fields consumed by load_state (simulator.h lines 760
to 854): dimensions, gravity, the R field rows, one (p, old_p) pair per
cell, four velocity values per cell, the tick counter, then the density
overrides. -/
def loadFormat (R C overrides : Nat) : List ChkTok :=
  ChkTok.dims :: ChkTok.grav ::
    (List.replicate R ChkTok.fieldRow
      ++ List.replicate (R * C) ChkTok.presPair
      ++ List.replicate (R * C * 4) ChkTok.vel
      ++ [ChkTok.ut]
      ++ List.replicate overrides ChkTok.rhoLine)

/-- The dimension checks of initialize_field (simulator.h lines 189 to
197), in source order: a static allocation bound check on rows, then on
cols, then the rejection of zero extents. -/
def initCheck (N K R C : Nat) : Except String Unit :=
  if N < R ∧ N ≠ 0 then Except.error "Invalid rows"
  else if K < C ∧ K ≠ 0 then Except.error "Invalid cols"
  else if R = 0 ∨ C = 0 then Except.error "Invalid rows or cols"
  else Except.ok ()

/-- Per-cell vector of four numeric values, one per direction
(std::array of size 4). -/
structure Vec4 where
  a : Rat
  b : Rat
  c : Rat
  d : Rat
deriving DecidableEq, Repr

/-- The zero-filled per-cell vector. -/
def Vec4.zero : Vec4 := ⟨0, 0, 0, 0⟩

/-- Component read by direction index; indices at or above 4 do not occur
in the engine. -/
def Vec4.get : Vec4 → Nat → Rat
  | v, 0 => v.a
  | v, 1 => v.b
  | v, 2 => v.c
  | v, 3 => v.d
  | _, _ => 0

/-- Component write by direction index. -/
def Vec4.set : Vec4 → Nat → Rat → Vec4
  | v, 0, q => ⟨q, v.b, v.c, v.d⟩
  | v, 1, q => ⟨v.a, q, v.c, v.d⟩
  | v, 2, q => ⟨v.a, v.b, q, v.d⟩
  | v, 3, q => ⟨v.a, v.b, v.c, q⟩
  | v, _, _ => v

/-- Read of a two-dimensional vector-of-vectors at (x, y) with a default
for positions outside the stored lists. -/
def gget {α : Type} (g : List (List α)) (x y : Nat) (dflt : α) : α :=
  (g.getD x []).getD y dflt

/-- Write of a two-dimensional vector-of-vectors at (x, y); writes outside
the stored lists change nothing (such writes do not occur on the defined
executions of the engine). -/
def gset {α : Type} (g : List (List α)) (x y : Nat) (v : α) : List (List α) :=
  g.set x ((g.getD x []).set y v)

/-- The mutable state of FluidSimulator on the dynamic path
(simulator.h lines 51 to 65): character field, pressure and previous
pressure, velocity and velocity-flow directional fields, last-use stamps,
extents, tick counter, gravity, density table and the position in the
PRNG stream. -/
structure SimState where
  field_data : List (List Char)
  p : List (List Rat)
  old_p : List (List Rat)
  velocity : List (List Vec4)
  velocity_flow : List (List Vec4)
  last_use : List (List Nat)
  rows : Nat
  cols : Nat
  UT : Nat
  g : Rat
  rho : Char → Rat
  rngIdx : Nat

/-- Character field read; out-of-range reads default to the wall
character (the source would read out of bounds there, see
gravitySouthReads and moveProbReads for the places where it does). -/
def getF (s : SimState) (x y : Nat) : Char := gget s.field_data x y '#'

/-- Pressure read. -/
def getP (s : SimState) (x y : Nat) : Rat := gget s.p x y 0

/-- Previous-pressure read. -/
def getOldP (s : SimState) (x y : Nat) : Rat := gget s.old_p x y 0

/-- Velocity vector read. -/
def getV (s : SimState) (x y : Nat) : Vec4 := gget s.velocity x y Vec4.zero

/-- Velocity-flow vector read. -/
def getVF (s : SimState) (x y : Nat) : Vec4 := gget s.velocity_flow x y Vec4.zero

/-- Last-use stamp read. -/
def getLU (s : SimState) (x y : Nat) : Nat := gget s.last_use x y 0

/-- Character field read at signed coordinates; negative coordinates
default to the wall character, matching the benign reading of the
unchecked source accesses. -/
def getFZ (s : SimState) (x y : Int) : Char :=
  if 0 ≤ x ∧ 0 ≤ y then getF s x.toNat y.toNat else '#'

/-- Last-use read at signed coordinates. -/
def getLUZ (s : SimState) (x y : Int) : Nat :=
  if 0 ≤ x ∧ 0 ≤ y then getLU s x.toNat y.toNat else 0

/-- Character field write. -/
def setF (s : SimState) (x y : Nat) (c : Char) : SimState :=
  { s with field_data := gset s.field_data x y c }

/-- Pressure write. -/
def setPat (s : SimState) (x y : Nat) (q : Rat) : SimState :=
  { s with p := gset s.p x y q }

/-- Whole velocity vector write (set_array). -/
def setVarr (s : SimState) (x y : Nat) (v : Vec4) : SimState :=
  { s with velocity := gset s.velocity x y v }

/-- Single velocity component write. -/
def setVat (s : SimState) (x y : Nat) (i : Nat) (q : Rat) : SimState :=
  setVarr s x y ((getV s x y).set i q)

/-- velocity.add(x, y, dx, dy, dv): increment of one velocity component. -/
def velAdd (s : SimState) (x y : Nat) (i : Nat) (dq : Rat) : SimState :=
  setVat s x y i ((getV s x y).get i + dq)

/-- Single velocity-flow component write. -/
def setVFat (s : SimState) (x y : Nat) (i : Nat) (q : Rat) : SimState :=
  { s with velocity_flow := gset s.velocity_flow x y ((getVF s x y).set i q) }

/-- velocity_flow.add(x, y, dx, dy, dv). -/
def vfAdd (s : SimState) (x y : Nat) (i : Nat) (dq : Rat) : SimState :=
  setVFat s x y i ((getVF s x y).get i + dq)

/-- Last-use stamp write. -/
def setLU (s : SimState) (x y : Nat) (n : Nat) : SimState :=
  { s with last_use := gset s.last_use x y n }

/-- Row-major cell traversal used by every phase of the tick. -/
def cellList (R C : Nat) : List (Nat × Nat) :=
  (List.range R).flatMap (fun x => (List.range C).map (fun y => (x, y)))

/-- The local particle record of the swap helper
(simulator.h lines 31 to 34). -/
structure PP where
  type : Char
  cur_p : Rat
  v : Vec4

/-- ParticleParams::swap_with on the dynamic path (simulator.h lines 42
to 46): the character and the pressure are exchanged with the local
record, but the velocity array is read into the local and the very same
array is written back, so the velocity of the cell is left unchanged. -/
def swapWith (s : SimState) (pp : PP) (x y : Nat) : SimState × PP :=
  let t := getF s x y
  let s1 := setF s x y pp.type
  let pc := getP s1 x y
  let s2 := setPat s1 x y pp.cur_p
  let arr := getV s2 x y
  let s3 := setVarr s2 x y arr
  (s3, ⟨t, pc, arr⟩)

/-- The three-call rotation performed by propagate_move when a move
commits on a recursive call (simulator.h lines 154 to 157), starting from
a value-initialised ParticleParams. -/
def rotate (s : SimState) (x y tx ty : Nat) : SimState :=
  let r1 := swapWith s ⟨Char.ofNat 0, 0, Vec4.zero⟩ x y
  let r2 := swapWith r1.1 r1.2 tx ty
  let r3 := swapWith r2.1 r2.2 x y
  r3.1

/-- The coordinates read by the gravity loop of phase A beyond the cell
itself (simulator.h lines 422 to 428): for every non-wall cell the south
neighbor (x + 1, y) is read with no bounds check. -/
def gravitySouthReads (R C : Nat) (F : List (List Char)) : List (Nat × Nat) :=
  ((cellList R C).filter (fun c => gget F c.1 c.2 '#' ≠ '#')).map
    (fun c => (c.1 + 1, c.2))

/-- The neighbor coordinates read by move_prob (simulator.h lines 373 to
375): all four offsets are applied with no bounds check. -/
def moveProbReads (x y : Nat) : List (Int × Int) :=
  [0, 1, 2, 3].map (fun i => ((x : Int) + (deltaAt i).1, (y : Int) + (deltaAt i).2))

/-- Number of in-bounds non-wall neighbors, zero for walls, precomputed
once at the start of run (simulator.h lines 388 to 400). -/
def dirsAt (s : SimState) (x y : Nat) : Nat :=
  if getF s x y = '#' then 0
  else
    ([0, 1, 2, 3].filter (fun i =>
      let d := deltaAt i
      let nxz := (x : Int) + d.1
      let nyz := (y : Int) + d.2
      decide (0 ≤ nxz ∧ nxz < (s.rows : Int) ∧ 0 ≤ nyz ∧ nyz < (s.cols : Int)
        ∧ getFZ s nxz nyz ≠ '#'))).length

/-- Phase A, gravity (simulator.h lines 422 to 428): for every non-wall
cell whose south neighbor reads as non-wall, add g to the south velocity
component (direction index 1 resolves (1, 0)). -/
def phaseA (s : SimState) : SimState :=
  (cellList s.rows s.cols).foldl
    (fun t c =>
      if getF t c.1 c.2 = '#' then t
      else if getF t (c.1 + 1) c.2 ≠ '#' then velAdd t c.1 c.2 1 t.g else t) s

/-- One direction of the phase B pressure-driven acceleration
(simulator.h lines 436 to 453). -/
def phaseBStep (dirs : Nat → Nat → Nat) (x y : Nat) (t : SimState) (i : Nat) : SimState :=
  let d := deltaAt i
  let nxz := (x : Int) + d.1
  let nyz := (y : Int) + d.2
  if nxz < 0 ∨ nyz < 0 ∨ (t.rows : Int) ≤ nxz ∨ (t.cols : Int) ≤ nyz then t
  else
    let nx := nxz.toNat
    let ny := nyz.toNat
    if getF t nx ny ≠ '#' ∧ getOldP t nx ny < getOldP t x y then
      let force := getOldP t x y - getOldP t nx ny
      let contr := (getV t nx ny).get (revIdx i)
      if force ≤ contr * t.rho (getF t nx ny) then
        setVat t nx ny (revIdx i) (contr - force / t.rho (getF t nx ny))
      else
        let force2 := force - contr * t.rho (getF t nx ny)
        let u := setVat t nx ny (revIdx i) 0
        let u2 := velAdd u x y i (force2 / u.rho (getF u x y))
        setPat u2 x y (getP u2 x y - force2 / (dirs x y : Rat))
    else t

/-- Phase B (simulator.h lines 430 to 455): snapshot the pressure into
old_p, then for every non-wall cell accelerate along each direction with
a strictly lower previous pressure at the neighbor. -/
def phaseB (dirs : Nat → Nat → Nat) (s : SimState) : SimState :=
  let s1 := { s with old_p := s.p }
  (cellList s1.rows s1.cols).foldl
    (fun t c =>
      if getF t c.1 c.2 = '#' then t
      else [0, 1, 2, 3].foldl (fun u i => phaseBStep dirs c.1 c.2 u i) t) s1

/-- The reset of the velocity-flow field before the phase C sweeps
(simulator.h lines 457 to 458). -/
def vfReset (s : SimState) : SimState :=
  { s with velocity_flow := List.replicate s.rows (List.replicate s.cols Vec4.zero) }

/-- move_prob (simulator.h lines 367 to 384): sum of the nonnegative
outward velocity components toward neighbors that are neither walls nor
already visited this sweep; the source applies the offsets with no bounds
check, modelled here by the defaulted signed reads. -/
def move_prob (s : SimState) (x y : Nat) : Rat :=
  [0, 1, 2, 3].foldl
    (fun sum i =>
      let d := deltaAt i
      let nxz := (x : Int) + d.1
      let nyz := (y : Int) + d.2
      if getFZ s nxz nyz = '#' ∨ getLUZ s nxz nyz = s.UT then sum
      else
        let v := (getV s x y).get i
        if 0 ≤ v then sum + v else sum) 0

/-- The direction loop of propagate_flow (simulator.h lines 292 to 323),
parameterised by the recursive call; ret accumulates the t values of
non-committing recursive calls. -/
def pfGo (rec : SimState → Nat → Nat → Rat → Option (SimState × Rat × Bool × (Nat × Nat)))
    (x y : Nat) (lim : Rat) :
    SimState → Rat → List Nat → Option (SimState × Rat × Bool × (Nat × Nat))
  | s, ret, [] => some (setLU s x y s.UT, ret, false, (0, 0))
  | s, ret, i :: rest =>
    let d := deltaAt i
    let nxz := (x : Int) + d.1
    let nyz := (y : Int) + d.2
    if nxz < 0 ∨ nyz < 0 ∨ (s.rows : Int) ≤ nxz ∨ (s.cols : Int) ≤ nyz then
      pfGo rec x y lim s ret rest
    else
      let nx := nxz.toNat
      let ny := nyz.toNat
      if getF s nx ny = '#' then pfGo rec x y lim s ret rest
      else if getF s nx ny ≠ '#' ∧ getLU s nx ny < s.UT then
        let cap := (getV s x y).get i
        let flow := (getVF s x y).get i
        if flow = cap then pfGo rec x y lim s ret rest
        else
          let vp := min lim (cap - flow)
          if getLU s nx ny = s.UT - 1 then
            let s1 := vfAdd s x y i vp
            let s2 := setLU s1 x y s1.UT
            some (s2, vp, true, (nx, ny))
          else
            match rec s nx ny vp with
            | none => none
            | some (s1, t, prop, e) =>
              if prop then
                let s2 := vfAdd s1 x y i t
                let s3 := setLU s2 x y s2.UT
                some (s3, t, prop && !(e == (x, y)), e)
              else pfGo rec x y lim s1 (ret + t) rest
      else pfGo rec x y lim s ret rest

/-- propagate_flow on the dynamic path (simulator.h lines 279 to 327):
stamp the cell as on the frontier, return early for walls and
out-of-range cells, otherwise walk the four directions in table order;
fuel bounds the recursion depth and none models exhaustion. -/
def propagate_flow : Nat → SimState → Nat → Nat → Rat →
    Option (SimState × Rat × Bool × (Nat × Nat))
  | 0, _, _, _, _ => none
  | fuel + 1, s, x, y, lim =>
    let s1 := setLU s x y (s.UT - 1)
    if s1.rows ≤ x ∨ s1.cols ≤ y ∨ getF s1 x y = '#' then some (s1, 0, false, (0, 0))
    else pfGo (fun t a b l => propagate_flow fuel t a b l) x y lim s1 0 [0, 1, 2, 3]

/-- The early-exit test of propagate_stop without force (simulator.h
lines 337 to 346): some in-bounds non-wall neighbor not yet claimed this
sweep still receives positive outward velocity. -/
def psAlive (s : SimState) (x y : Nat) : Bool :=
  [0, 1, 2, 3].any (fun i =>
    let d := deltaAt i
    let nxz := (x : Int) + d.1
    let nyz := (y : Int) + d.2
    decide (0 ≤ nxz ∧ 0 ≤ nyz ∧ nxz < (s.rows : Int) ∧ nyz < (s.cols : Int)
      ∧ getFZ s nxz nyz ≠ '#' ∧ getLUZ s nxz nyz + 1 < s.UT
      ∧ 0 < (getV s x y).get i))

/-- The recursion loop of propagate_stop (simulator.h lines 353 to 363),
parameterised by the recursive call with force false. -/
def psGo (rec : SimState → Nat → Nat → Option SimState) (x y : Nat) :
    SimState → List Nat → Option SimState
  | s, [] => some s
  | s, i :: rest =>
    let d := deltaAt i
    let nxz := (x : Int) + d.1
    let nyz := (y : Int) + d.2
    if nxz < 0 ∨ nyz < 0 ∨ (s.rows : Int) ≤ nxz ∨ (s.cols : Int) ≤ nyz then
      psGo rec x y s rest
    else
      let nx := nxz.toNat
      let ny := nyz.toNat
      if getF s nx ny = '#' ∨ getLU s nx ny = s.UT ∨ 0 < (getV s x y).get i then
        psGo rec x y s rest
      else
        match rec s nx ny with
        | none => none
        | some s1 => psGo rec x y s1 rest

/-- propagate_stop on the dynamic path (simulator.h lines 330 to 364). -/
def propagate_stop : Nat → SimState → Nat → Nat → Bool → Option SimState
  | 0, _, _, _, _ => none
  | fuel + 1, s, x, y, force =>
    if force = false ∧ psAlive s x y = true then some s
    else
      let s1 := setLU s x y s.UT
      psGo (fun t a b => propagate_stop fuel t a b false) x y s1 [0, 1, 2, 3]

/-- One direction of the threshold accumulation of propagate_move
(simulator.h lines 101 to 118); the thresholds array is value-initialised
to zeros and skipped directions keep their zero entry. -/
def pmStep (s : SimState) (x y : Nat) (acc : Vec4 × Rat) (i : Nat) : Vec4 × Rat :=
  let d := deltaAt i
  let nxz := (x : Int) + d.1
  let nyz := (y : Int) + d.2
  if nxz < 0 ∨ nyz < 0 ∨ (s.rows : Int) ≤ nxz ∨ (s.cols : Int) ≤ nyz then acc
  else if getFZ s nxz nyz = '#' ∨ getLUZ s nxz nyz = s.UT then acc
  else
    let v := (getV s x y).get i
    if v < 0 then (acc.1.set i acc.2, acc.2)
    else (acc.1.set i (acc.2 + v), acc.2 + v)

/-- The thresholds array and the total positive outward velocity built by
one iteration of the movement loop. -/
def pmThresholds (s : SimState) (x y : Nat) : Vec4 × Rat :=
  [0, 1, 2, 3].foldl (pmStep s x y) (Vec4.zero, 0)

/-- Direction selection (simulator.h lines 125 to 131): the first index
whose threshold strictly exceeds the draw, defaulting to 0. -/
def pmSelect (thr : Vec4) (r : Rat) : Nat :=
  if r < thr.a then 0
  else if r < thr.b then 1
  else if r < thr.c then 2
  else if r < thr.d then 3
  else 0

/-- The do-while movement loop of propagate_move (simulator.h lines 96 to
143), parameterised by the recursive call; returns the state, the ret
flag and the last chosen target. -/
def pmLoop (rec : SimState → Nat → Nat → Option (SimState × Bool)) (rng : Nat → Rat)
    (x y : Nat) : Nat → SimState → Option (SimState × Bool × Option (Nat × Nat))
  | 0, _ => none
  | f + 1, s =>
    let tr := pmThresholds s x y
    if tr.2 = 0 then some (s, false, none)
    else
      let r := rng s.rngIdx * tr.2
      let s1 := { s with rngIdx := s.rngIdx + 1 }
      let dir := pmSelect tr.1 r
      let d := deltaAt dir
      let txz := (x : Int) + d.1
      let tyz := (y : Int) + d.2
      if txz < 0 ∨ tyz < 0 ∨ (s1.rows : Int) ≤ txz ∨ (s1.cols : Int) ≤ tyz then
        pmLoop rec rng x y f s1
      else
        let tx := txz.toNat
        let ty := tyz.toNat
        if getLU s1 tx ty = s1.UT - 1 then some (s1, true, some (tx, ty))
        else
          match rec s1 tx ty with
          | none => none
          | some (s2, b) =>
            if b then some (s2, true, some (tx, ty)) else pmLoop rec rng x y f s2

/-- The post-loop stop propagation of propagate_move (simulator.h lines
145 to 151): for every in-bounds non-wall neighbor not claimed this sweep
that receives negative outward velocity, run propagate_stop without
force. -/
def pmStops (stopF : SimState → Nat → Nat → Option SimState) (x y : Nat) :
    SimState → List Nat → Option SimState
  | s, [] => some s
  | s, i :: rest =>
    let d := deltaAt i
    let nxz := (x : Int) + d.1
    let nyz := (y : Int) + d.2
    if 0 ≤ nxz ∧ 0 ≤ nyz ∧ nxz < (s.rows : Int) ∧ nyz < (s.cols : Int)
        ∧ getFZ s nxz nyz ≠ '#' ∧ getLUZ s nxz nyz + 1 < s.UT
        ∧ (getV s x y).get i < 0 then
      match stopF s nxz.toNat nyz.toNat with
      | none => none
      | some s1 => pmStops stopF x y s1 rest
    else pmStops stopF x y s rest

/-- propagate_move on the dynamic path (simulator.h lines 82 to 161):
stamp the cell, honour the recursion-depth guard of 1000, run the
movement loop, restamp, run the stop propagation, and on a committed
non-first move perform the three-call rotation with the last target. -/
def propagate_move (rng : Nat → Rat) : Nat → SimState → Nat → Nat → Bool → Nat →
    Option (SimState × Bool)
  | 0, _, _, _, _, _ => none
  | fuel + 1, s, x, y, isFirst, depth =>
    let s1 := setLU s x y (s.UT - (if isFirst then 1 else 0))
    if 1000 < depth then some (s1, false)
    else
      match pmLoop (fun t a b => propagate_move rng fuel t a b false (depth + 1))
          rng x y fuel s1 with
      | none => none
      | some (s2, ret, tgt) =>
        let s3 := setLU s2 x y s2.UT
        match pmStops (fun t a b => propagate_stop fuel t a b false) x y s3 [0, 1, 2, 3] with
        | none => none
        | some s4 =>
          if ret = true ∧ isFirst = false then
            match tgt with
            | some t2 => some (rotate s4 x y t2.1 t2.2, ret)
            | none => some (s4, ret)
          else some (s4, ret)

/-- One phase C sweep over the cells (simulator.h lines 463 to 473):
every non-wall cell not yet fully processed this sweep is propagated with
limit 1; a positive returned t records that progress was made. -/
def phaseCsweep (fuel : Nat) : SimState → Bool → List (Nat × Nat) →
    Option (SimState × Bool)
  | s, pr, [] => some (s, pr)
  | s, pr, c :: rest =>
    if getF s c.1 c.2 ≠ '#' ∧ getLU s c.1 c.2 ≠ s.UT then
      match propagate_flow fuel s c.1 c.2 1 with
      | none => none
      | some (s1, t, _, _) => phaseCsweep fuel s1 (pr || decide (0 < t)) rest
    else phaseCsweep fuel s pr rest

/-- The repeat-until-quiescent loop of phase C (simulator.h lines 460 to
474): bump the tick counter by two and sweep, until a sweep makes no
progress; the outer fuel bounds the number of sweeps. -/
def phaseCloop (fuel : Nat) : Nat → SimState → Option SimState
  | 0, _ => none
  | n + 1, s =>
    let s1 := { s with UT := s.UT + 2 }
    match phaseCsweep fuel s1 false (cellList s1.rows s1.cols) with
    | none => none
    | some (s2, true) => phaseCloop fuel n s2
    | some (s2, false) => some s2

/-- One direction of the post-sweep pressure crediting (simulator.h
lines 480 to 499): overwrite a positive velocity by the committed flow
and credit the freed force, damped for the distinguished species, to the
pressure of the neighbor, or of the cell itself when the neighbor is a
wall. -/
def creditStep (dirs : Nat → Nat → Nat) (x y : Nat) (t : SimState) (i : Nat) : SimState :=
  let d := deltaAt i
  let nxz := (x : Int) + d.1
  let nyz := (y : Int) + d.2
  if nxz < 0 ∨ nyz < 0 ∨ (t.rows : Int) ≤ nxz ∨ (t.cols : Int) ≤ nyz then t
  else
    let nx := nxz.toNat
    let ny := nyz.toNat
    let old_v := (getV t x y).get i
    let new_v := (getVF t x y).get i
    if 0 < old_v then
      let t1 := setVat t x y i new_v
      let force := (old_v - new_v) * t1.rho (getF t1 x y)
      let force2 := if getF t1 x y = '.' then force * (4 / 5) else force
      if getF t1 nx ny = '#' then setPat t1 x y (getP t1 x y + force2 / (dirs x y : Rat))
      else setPat t1 nx ny (getP t1 nx ny + force2 / (dirs nx ny : Rat))
    else t

/-- The pressure crediting pass after the phase C sweeps (simulator.h
lines 476 to 501). -/
def phaseCredit (dirs : Nat → Nat → Nat) (s : SimState) : SimState :=
  (cellList s.rows s.cols).foldl
    (fun t c =>
      if getF t c.1 c.2 = '#' then t
      else [0, 1, 2, 3].foldl (fun u i => creditStep dirs c.1 c.2 u i) t) s

/-- Phase D traversal (simulator.h lines 506 to 519): for every non-wall
unprocessed cell draw a uniform value, compare against move_prob and
either move or stop with force. -/
def phaseDGo (rng : Nat → Rat) (fuel : Nat) : SimState → Bool → List (Nat × Nat) →
    Option (SimState × Bool)
  | s, pr, [] => some (s, pr)
  | s, pr, c :: rest =>
    if getF s c.1 c.2 ≠ '#' ∧ getLU s c.1 c.2 ≠ s.UT then
      let r := rng s.rngIdx
      let s1 := { s with rngIdx := s.rngIdx + 1 }
      if r < move_prob s1 c.1 c.2 then
        match propagate_move rng fuel s1 c.1 c.2 true 0 with
        | none => none
        | some (s2, _) => phaseDGo rng fuel s2 true rest
      else
        match propagate_stop fuel s1 c.1 c.2 true with
        | none => none
        | some s2 => phaseDGo rng fuel s2 pr rest
    else phaseDGo rng fuel s pr rest

/-- Phase D (simulator.h lines 503 to 519): bump the tick counter by two
and traverse; the returned flag records whether any particle moved. -/
def phaseD (rng : Nat → Rat) (fuel : Nat) (s : SimState) : Option (SimState × Bool) :=
  let s1 := { s with UT := s.UT + 2 }
  phaseDGo rng fuel s1 false (cellList s1.rows s1.cols)

/-- One tick (one iteration of the steps loop of run, simulator.h lines
414 to 526): gravity, acceleration, flow reset and sweeps, crediting,
movement. -/
def tick (rng : Nat → Rat) (dirs : Nat → Nat → Nat) (fuel : Nat) (s : SimState) :
    Option (SimState × Bool) :=
  let s1 := phaseA s
  let s2 := phaseB dirs s1
  let s3 := vfReset s2
  match phaseCloop fuel fuel s3 with
  | none => none
  | some s4 =>
    let s5 := phaseCredit dirs s4
    phaseD rng fuel s5

/-- The per-tick observable snapshot: character field, pressures,
velocities. -/
def Snap : Type := List (List Char) × List (List Rat) × List (List Vec4)

/-- The snapshot of a state. -/
def snapOf (s : SimState) : Snap := (s.field_data, s.p, s.velocity)

/-- The steps loop of run (simulator.h lines 414 and 521 to 526); the
loop counter is additionally incremented inside the per-tick printout
whenever a particle moved, so a moving tick consumes two steps. -/
def runGo (rng : Nat → Rat) (dirs : Nat → Nat → Nat) (fuel : Nat) :
    Nat → SimState → List Snap → Option (SimState × List Snap)
  | 0, s, acc => some (s, acc.reverse)
  | r + 1, s, acc =>
    match tick rng dirs fuel s with
    | none => none
    | some (s1, pr) =>
      if pr then
        match r with
        | 0 => some (s1, (snapOf s1 :: acc).reverse)
        | r2 + 1 => runGo rng dirs fuel r2 s1 (snapOf s1 :: acc)
      else runGo rng dirs fuel r s1 (snapOf s1 :: acc)

/-- run(steps): precompute the neighbor counts from the state at entry,
then drive the steps loop collecting the per-tick snapshots. -/
def runTrace (rng : Nat → Rat) (fuel steps : Nat) (s : SimState) :
    Option (SimState × List Snap) :=
  runGo rng (fun x y => dirsAt s x y) fuel steps s []

/-- The density table built by initialize_field (simulator.h lines 199
and 203 to 215): default 0.01 for every character, then the parsed
overrides applied in order. -/
def rhoOf (rp : List (Char × Rat)) : Char → Rat :=
  rp.foldl (fun f pr => fun c => if c = pr.1 then pr.2 else f c) (fun _ => 1 / 100)

/-- The engine state produced by the constructor on the dynamic path
(simulator.h lines 170 to 230): the parsed field, zero-filled pressure,
velocity, flow and stamp grids, tick counter zero, and the PRNG freshly
seeded (position zero in the draw stream); the seed is the fixed
constant 1337 (line 173). -/
def initState (R C : Nat) (g : Rat) (F : List (List Char)) (rp : List (Char × Rat)) :
    SimState :=
  { field_data := F
    p := List.replicate R (List.replicate C 0)
    old_p := List.replicate R (List.replicate C 0)
    velocity := List.replicate R (List.replicate C Vec4.zero)
    velocity_flow := List.replicate R (List.replicate C Vec4.zero)
    last_use := List.replicate R (List.replicate C 0)
    rows := R
    cols := C
    UT := 0
    g := g
    rho := rhoOf rp
    rngIdx := 0 }

/-- The constructor seed (simulator.h line 173). -/
def construction_seed : Nat := 1337

/-- initialize_field with its dimension checks: construction either
throws (error) and produces no simulator, or yields the initial state. -/
def initialize_field (N K R C : Nat) (g : Rat) (F : List (List Char))
    (rp : List (Char × Rat)) : Except String SimState :=
  match initCheck N K R C with
  | Except.error e => Except.error e
  | Except.ok _ => Except.ok (initState R C g F rp)

/-- The character grid has exactly the declared extents (true of every
state built by the constructor from a well-formed description). -/
def fieldDims (s : SimState) : Prop :=
  s.field_data.length = s.rows ∧ ∀ r ∈ s.field_data, r.length = s.cols

/-- The wall map w marks exactly the wall cells, and every wall cell
still holds its initial zero pressure, velocity, flow and stamp. -/
def WallsOK (w : Nat → Nat → Bool) (s : SimState) : Prop :=
  ∀ x y, x < s.rows → y < s.cols →
    ((getF s x y = '#') ↔ w x y = true) ∧
    (w x y = true → getP s x y = 0 ∧ getV s x y = Vec4.zero ∧
      getVF s x y = Vec4.zero ∧ getLU s x y = 0)

/-- The invariant carried through every phase: exact field extents plus
the wall conditions. -/
def SInv (w : Nat → Nat → Bool) (s : SimState) : Prop := fieldDims s ∧ WallsOK w s

/-- Conclusion shape of the wall-inviolability theorem: whenever the run
returns, every cell that is a wall in the start state still is one and
its pressure, velocity, velocity flow and stamp equal their values in the
start state. -/
def wallsUntouched (s0 : SimState) (o : Option (SimState × List Snap)) : Prop :=
  ∀ r, o = some r → ∀ x y, x < s0.rows → y < s0.cols → getF s0 x y = '#' →
    getF r.1 x y = '#' ∧ getP r.1 x y = getP s0 x y ∧ getV r.1 x y = getV s0 x y ∧
    getVF r.1 x y = getVF s0 x y ∧ getLU r.1 x y = getLU s0 x y

/-- The cells not yet claimed nor processed in the current sweep; the
termination measure of propagate_flow. -/
def unvisited (s : SimState) : Finset (Nat × Nat) :=
  (Finset.range s.rows ×ˢ Finset.range s.cols).filter
    (fun c => getLU s c.1 c.2 + 1 < s.UT)

/-- A grid holds exactly one non-wall cell (within the declared extents). -/
def SingleNonWall (s : SimState) (cx cy : Nat) : Prop :=
  getF s cx cy ≠ '#' ∧
  ∀ x, x < s.rows → ∀ y, y < s.cols → ¬(x = cx ∧ y = cy) → getF s x y = '#'

/-- The last-use grid has exactly the declared extents, as every state
built by the constructor does; propagate_flow relies on its stamp writes
landing. -/
def luDims (s : SimState) : Prop :=
  s.last_use.length = s.rows ∧ ∀ r ∈ s.last_use, r.length = s.cols

/-- State evolution preserved by every routine of the tick: the extents
are kept, the wall set is kept, and the wall cells keep their initial
zero values. -/
def Pres (s t : SimState) : Prop :=
  t.rows = s.rows ∧ t.cols = s.cols ∧
  (∀ a b, (getF t a b = '#') ↔ (getF s a b = '#')) ∧
  (∀ w, WallsOK w s → WallsOK w t)

/-- Bookkeeping facts preserved by propagate_flow: the extents and the
tick counter are unchanged, the set of unclaimed cells never grows, and
exact last-use extents are kept. -/
def Shape (s t : SimState) : Prop :=
  t.rows = s.rows ∧ t.cols = s.cols ∧ t.UT = s.UT ∧
  unvisited t ⊆ unvisited s ∧ (luDims s → luDims t)

/-- A direction is allowed for the movement loop at (x, y): in bounds,
not a wall, not yet fully processed this sweep; exactly the guard under
which the thresholds loop of propagate_move accumulates the direction. -/
def Allowed (s : SimState) (x y i : Nat) : Prop :=
  0 ≤ (x : Int) + (deltaAt i).1 ∧ 0 ≤ (y : Int) + (deltaAt i).2 ∧
  (x : Int) + (deltaAt i).1 < (s.rows : Int) ∧ (y : Int) + (deltaAt i).2 < (s.cols : Int) ∧
  getFZ s ((x : Int) + (deltaAt i).1) ((y : Int) + (deltaAt i).2) ≠ '#' ∧
  getLUZ s ((x : Int) + (deltaAt i).1) ((y : Int) + (deltaAt i).2) ≠ s.UT

/-- A concrete draw stream lying in the unit interval, standing in for
the mt19937(1337) uniform stream in concrete instantiations. -/
def rngHalf : Nat → Rat := fun _ => 1 / 2

/-- Three-by-three grid whose only non-wall cell is the center. -/
def singleCellGrid : List (List Char) := [['#', '#', '#'], ['#', ' ', '#'], ['#', '#', '#']]

/-- Engine state built from the single-cell grid with gravity 1. -/
def singleCellState : SimState := initState 3 3 1 singleCellGrid []

/-- Engine state built from a one-by-two grid: a wall next to a damping
fluid cell. -/
def wallPairState : SimState := initState 1 2 1 [['#', '.']] []

/-- The wall-pair state at the start of a propagation sweep (the tick
counter has been bumped to 2 by the first sweep of phase C). -/
def sweepState : SimState := { wallPairState with UT := 2 }

/- ===== Base lemmas about grids and per-cell vectors ===== -/

theorem set_getD_self {α : Type} (l : List α) (y : Nat) (d : α) :
    l.set y (l.getD y d) = l := by
  induction l generalizing y with
  | nil => simp
  | cons h t ih =>
    cases y with
    | zero => simp
    | succ n =>
      rw [List.getD_cons_succ]
      show h :: t.set n (t.getD n d) = h :: t
      rw [ih n]

theorem getD_set_same {α : Type} (l : List α) (y : Nat) (v d : α) (h : y < l.length) :
    (l.set y v).getD y d = v := by
  rw [List.getD_eq_getElem?_getD, List.getElem?_set, if_pos rfl, if_pos h]
  rfl

theorem getD_set_ne {α : Type} (l : List α) (y b : Nat) (v d : α) (h : y ≠ b) :
    (l.set y v).getD b d = l.getD b d := by
  rw [List.getD_eq_getElem?_getD, List.getElem?_set_ne h, ← List.getD_eq_getElem?_getD]

theorem gget_gset {α : Type} (g : List (List α)) (x y a b : Nat) (v d : α) :
    gget (gset g x y v) a b d =
      if x = a ∧ y = b ∧ x < g.length ∧ y < (g.getD x []).length then v
      else gget g a b d := by
  unfold gget gset
  by_cases hx : x = a
  · subst hx
    by_cases hl : x < g.length
    · rw [getD_set_same _ _ _ _ hl]
      by_cases hy : y = b
      · subst hy
        by_cases hyl : y < (g.getD x []).length
        · rw [getD_set_same _ _ _ _ hyl, if_pos ⟨rfl, rfl, hl, hyl⟩]
        · rw [List.set_eq_of_length_le (Nat.le_of_not_lt hyl), if_neg]
          intro hc
          exact hyl hc.2.2.2
      · rw [getD_set_ne _ _ _ _ _ hy, if_neg]
        intro hc
        exact hy hc.2.1
    · rw [List.set_eq_of_length_le (Nat.le_of_not_lt hl), if_neg]
      intro hc
      exact hl hc.2.2.1
  · rw [getD_set_ne _ _ _ _ _ hx, if_neg]
    intro hc
    exact hx hc.1

theorem gget_gset_ne {α : Type} (g : List (List α)) (x y a b : Nat) (v d : α)
    (h : ¬(x = a ∧ y = b)) : gget (gset g x y v) a b d = gget g a b d := by
  rw [gget_gset, if_neg]
  intro hc
  exact h ⟨hc.1, hc.2.1⟩

theorem gset_gget_self {α : Type} (g : List (List α)) (x y : Nat) (d : α) :
    gset g x y (gget g x y d) = g := by
  unfold gget gset
  rw [set_getD_self, set_getD_self]

theorem gget_replicate {α : Type} (R C a b : Nat) (z d : α) :
    gget (List.replicate R (List.replicate C z)) a b d = if a < R ∧ b < C then z else d := by
  unfold gget
  by_cases ha : a < R
  · have h1 : (List.replicate R (List.replicate C z)).getD a [] = List.replicate C z := by
      rw [List.getD_eq_getElem _ _ (by simpa using ha)]
      simp
    rw [h1]
    by_cases hb : b < C
    · rw [List.getD_eq_getElem _ _ (by simpa using hb), if_pos ⟨ha, hb⟩]
      simp
    · rw [List.getD_eq_getElem?_getD, List.getElem?_eq_none (by simpa using Nat.le_of_not_lt hb),
        if_neg (fun hc => hb hc.2)]
      rfl
  · have h1 : (List.replicate R (List.replicate C z)).getD a [] = [] := by
      rw [List.getD_eq_getElem?_getD, List.getElem?_eq_none (by simpa using Nat.le_of_not_lt ha)]
      rfl
    rw [h1, if_neg (fun hc => ha hc.1)]
    rfl

theorem vec4_get_zero (i : Nat) : Vec4.zero.get i = 0 := by
  rcases i with _ | _ | _ | _ | i <;> rfl

theorem vec4_get_set (v : Vec4) (i j : Nat) (q : Rat) :
    (v.set i q).get j = if i = j ∧ i < 4 then q else v.get j := by
  rcases i with _ | _ | _ | _ | i <;> rcases j with _ | _ | _ | _ | j <;>
    first
      | (rw [if_pos (by omega)]; rfl)
      | (rw [if_neg (by omega)]; rfl)

/- ===== C1: the checkpoint stream written by save_state versus the
stream expected by load_state ===== -/

/-- C1 (code bug): the checkpoint round-trip is broken because
save_state does not write the complete state.  For a one-by-one grid
with no density overrides, load_state consumes a (P, P_old) pair, four
velocity values and the tick counter UT that save_state never wrote: the
two stream formats differ, and the pressure-pair and tick-counter fields
appear in the load format but nowhere in the save format. -/
theorem c1_save_load_mismatch :
    saveFormat 1 0 ≠ loadFormat 1 1 0 ∧
    ChkTok.presPair ∈ loadFormat 1 1 0 ∧ ChkTok.presPair ∉ saveFormat 1 0 ∧
    ChkTok.ut ∈ loadFormat 1 1 0 ∧ ChkTok.ut ∉ saveFormat 1 0 ∧
    ChkTok.vel ∈ loadFormat 1 1 0 ∧ ChkTok.vel ∉ saveFormat 1 0 := by
  refine ⟨?_, ?_, ?_, ?_, ?_, ?_, ?_⟩ <;> decide

/- ===== C2: the swap helper of propagate_move ===== -/

/-- C2 (code bug): the rotation performed on a committed move leaves the
velocity field of every cell unchanged, while the character and the
pressure of the two cells are exchanged.  The general part holds for
every state and every pair of cells; the concrete part evaluates the
rotation on a one-by-two grid holding distinct velocity vectors, where
the claim would require the vector (5, 6, 7, 8) to follow its character
to cell (0, 0), yet the engine leaves (1, 2, 3, 4) there. -/
theorem c2_rotation_drops_velocity :
    (∀ s x y tx ty, (rotate s x y tx ty).velocity = s.velocity) ∧
    (let s0 : SimState :=
      { field_data := [['a', 'b']]
        p := [[1, 2]]
        old_p := [[0, 0]]
        velocity := [[⟨1, 2, 3, 4⟩, ⟨5, 6, 7, 8⟩]]
        velocity_flow := [[Vec4.zero, Vec4.zero]]
        last_use := [[0, 0]]
        rows := 1, cols := 2, UT := 0, g := 0
        rho := fun _ => 1 / 100
        rngIdx := 0 }
     getF (rotate s0 0 0 0 1) 0 0 = 'b' ∧ getP (rotate s0 0 0 0 1) 0 0 = 2 ∧
       getV (rotate s0 0 0 0 1) 0 0 = ⟨1, 2, 3, 4⟩ ∧
       getV (rotate s0 0 0 0 1) 0 1 = ⟨5, 6, 7, 8⟩) := by
  constructor
  · intro s x y tx ty
    simp only [rotate, swapWith, setF, setPat, setVarr, getV, getP, getF]
    rw [gset_gget_self, gset_gget_self, gset_gget_self]
  · exact ⟨rfl, rfl, rfl, rfl⟩

/- ===== C3: out-of-bounds neighbor reads on valid grids ===== -/

/-- C3 (code bug): on the valid one-by-one grid holding the single
non-wall cell, the gravity loop of phase A reads the south neighbor at
row 1, outside the single-row grid, and move_prob applied at the cell
reads the neighbor at row -1; both reads are performed by the source
with no bounds check, so the engine does generate out-of-bounds accesses
on a valid grid. -/
theorem c3_oob_reads :
    (1, 0) ∈ gravitySouthReads 1 1 [[' ']] ∧ ¬(1 < 1) ∧
    ((-1 : Int), (0 : Int)) ∈ moveProbReads 0 0 ∧ (-1 : Int) < 0 := by
  refine ⟨?_, ?_, ?_, ?_⟩ <;> decide

/- ===== C4: delta resolution of the directional field ===== -/

/-- C4 (counterexample): for the out-of-table offset (2, 0), add fails
with InvalidDelta but get does not fail at all: it resolves the offset to
the one-past-the-end index 4 of the length-4 per-cell array, so the
as-stated claim that both operations fail with InvalidDelta exactly off
the table is false for get. -/
theorem c4_get_unchecked :
    addResolve 2 0 = Except.error FieldErr.InvalidDelta ∧
    getResolve 2 0 = 4 ∧ ¬(getResolve 2 0 < deltasL.length) := by
  refine ⟨rfl, by decide, by decide⟩

/-- C4 (amended): add fails with InvalidDelta exactly when (dx, dy) is
not a member of the table D; on a member both operations resolve to the
index of (dx, dy) in D, and neither fails; get elides the membership
check, so on a non-member it resolves to the out-of-range index 4
instead of failing. -/
theorem c4_amended (dx dy : Int) :
    ((dx, dy) ∉ deltasL ↔ addResolve dx dy = Except.error FieldErr.InvalidDelta) ∧
    ((dx, dy) ∈ deltasL →
      addResolve dx dy = Except.ok (getResolve dx dy) ∧
      getResolve dx dy < 4 ∧ deltasL.getD (getResolve dx dy) (0, 0) = (dx, dy)) ∧
    ((dx, dy) ∉ deltasL → getResolve dx dy = 4) := by
  refine ⟨⟨fun h => ?_, fun h hm => ?_⟩, fun h => ⟨?_, ?_, ?_⟩, fun h => ?_⟩
  · unfold addResolve
    rw [if_neg h]
  · unfold addResolve at h
    rw [if_pos hm] at h
    exact Except.noConfusion h
  · unfold addResolve
    rw [if_pos h]
    rfl
  · unfold getResolve findDeltaIdx
    have : deltasL.findIdx (fun pr => pr == (dx, dy)) < deltasL.length := by
      apply List.findIdx_lt_length_of_exists
      exact ⟨(dx, dy), h, by simp⟩
    simpa [deltasL] using this
  · unfold getResolve findDeltaIdx
    have h1 : deltasL.findIdx (fun pr => pr == (dx, dy)) < deltasL.length := by
      apply List.findIdx_lt_length_of_exists
      exact ⟨(dx, dy), h, by simp⟩
    have h2 := @List.findIdx_getElem _ _ _ h1
    rw [List.getD_eq_getElem _ _ h1]
    simpa using h2
  · unfold getResolve findDeltaIdx
    have h4 : deltasL.findIdx (fun pr => pr == (dx, dy)) = deltasL.length :=
      List.findIdx_eq_length.mpr
        (fun pr hpr => beq_eq_false_iff_ne.mpr (fun he => h (he ▸ hpr)))
    rw [h4]
    rfl

/-- C4 (witness): the amended theorem instantiated at the member offset
(1, 0), resolved to index 1, and at the non-member (0, 2), rejected by
add and resolved to 4 by get. -/
theorem c4_amended_witness :
    (((1 : Int), (0 : Int)) ∈ deltasL ∧
      addResolve 1 0 = Except.ok (getResolve 1 0) ∧ getResolve 1 0 < 4 ∧
      deltasL.getD (getResolve 1 0) (0, 0) = (1, 0)) ∧
    (((0 : Int), (2 : Int)) ∉ deltasL ∧ getResolve 0 2 = 4) := by
  constructor
  · exact ⟨by decide, (c4_amended 1 0).2.1 (by decide)⟩
  · exact ⟨by decide, (c4_amended 0 2).2.2 (by decide)⟩

/- ===== C5: rounding of the fixed-point product and quotient ===== -/

theorem asr_eq_fdiv (a : Int) (k : Nat) : asr a k = Int.fdiv a (2 ^ k) := by
  have hpow : (0 : Int) < 2 ^ k := by positivity
  rw [Int.fdiv_eq_ediv a hpow.le]
  cases a with
  | ofNat n =>
    show Int.ofNat (n >>> k) = Int.ofNat n / 2 ^ k
    rw [Nat.shiftRight_eq_div_pow, Int.ofNat_eq_coe, Int.ofNat_eq_coe, Int.ofNat_ediv]
    norm_num
  | negSucc n =>
    show Int.negSucc (n >>> k) = Int.negSucc n / 2 ^ k
    rw [Int.negSucc_ediv n hpow, Nat.shiftRight_eq_div_pow, Int.negSucc_eq]
    have h2 : ((n / 2 ^ k : Nat) : Int) = (n : Int).ediv ((2 ^ k : Nat) : Int) :=
      Int.ofNat_ediv n (2 ^ k)
    have h3 : (((2 ^ k : Nat) : Int)) = (2 : Int) ^ k := by push_cast; ring
    rw [h3] at h2
    rw [h2]

/-- C5 (counterexample): with K = 16, the raw product of the fixed-point
values with raw parts -1 and 1 is -1, while truncation toward zero of
the exact value -1 / 65536 would give raw 0: the multiplication shift
does not round toward zero on negative operands. -/
theorem c5_mul_not_toward_zero :
    fixedMulRaw 16 (-1) 1 = -1 ∧ Int.tdiv ((-1) * 1) (2 ^ 16) = 0 ∧
    fixedMulRaw 16 (-1) 1 ≠ Int.tdiv ((-1) * 1) (2 ^ 16) := by
  refine ⟨by decide, by decide, by decide⟩

/-- C5 (amended): the product keeps raw value (a.v * b.v) >> K where the
shift is arithmetic, that is floor division by 2 ^ K, rounding toward
negative infinity; the quotient keeps raw value (a.v << K) / b.v with
C++ integer division, rounding toward zero, whose magnitude is the
floor of the magnitude ratio. -/
theorem c5_amended (K : Nat) (a b : Int) (_hb : b ≠ 0) :
    fixedMulRaw K a b = Int.fdiv (a * b) (2 ^ K) ∧
    (2 ^ K : Int) * fixedMulRaw K a b ≤ a * b ∧
    a * b < 2 ^ K * (fixedMulRaw K a b + 1) ∧
    fixedDivRaw K a b = Int.tdiv (a * 2 ^ K) b ∧
    (fixedDivRaw K a b).natAbs = (a * 2 ^ K).natAbs / b.natAbs := by
  have hpow : (0 : Int) < 2 ^ K := by positivity
  have h1 : fixedMulRaw K a b = Int.fdiv (a * b) (2 ^ K) := asr_eq_fdiv (a * b) K
  have hed : Int.fdiv (a * b) (2 ^ K) = (a * b) / (2 ^ K) := Int.fdiv_eq_ediv _ hpow.le
  have hdm := Int.ediv_add_emod (a * b) (2 ^ K)
  have hm0 : 0 ≤ (a * b) % (2 ^ K) := Int.emod_nonneg _ hpow.ne.symm
  have hm1 : (a * b) % (2 ^ K) < 2 ^ K := Int.emod_lt_of_pos _ hpow
  refine ⟨h1, ?_, ?_, rfl, ?_⟩
  · rw [h1, hed]
    linarith
  · rw [h1, hed]
    linarith
  · show (Int.tdiv (a * 2 ^ K) b).natAbs = _
    rw [Int.natAbs_tdiv]
    rfl

/-- C5 (witness): the amended theorem instantiated at K = 16,
a.v = -1, b.v = 3. -/
theorem c5_amended_witness :
    fixedMulRaw 16 (-1) 3 = Int.fdiv ((-1) * 3) (2 ^ 16) ∧
    (2 ^ 16 : Int) * fixedMulRaw 16 (-1) 3 ≤ (-1) * 3 ∧
    (-1 : Int) * 3 < 2 ^ 16 * (fixedMulRaw 16 (-1) 3 + 1) ∧
    fixedDivRaw 16 (-1) 3 = Int.tdiv ((-1) * 2 ^ 16) 3 ∧
    (fixedDivRaw 16 (-1) 3).natAbs = ((-1 : Int) * 2 ^ 16).natAbs / (3 : Int).natAbs :=
  c5_amended 16 (-1) 3 (by decide)

/- ===== C10: the dimension checks of construction ===== -/

/-- C10: construction fails by throwing whenever the parsed extents are
zero, or exceed a nonzero static allocation, and initialize_field yields
a simulator exactly when both extents are positive and fit the
allocation. -/
theorem c10_dimension_checks (N K R C : Nat) (g : Rat) (F : List (List Char))
    (rp : List (Char × Rat)) :
    ((R = 0 ∨ C = 0) → ∃ e, initialize_field N K R C g F rp = Except.error e) ∧
    ((N ≠ 0 ∧ N < R) → initialize_field N K R C g F rp = Except.error "Invalid rows") ∧
    ((K ≠ 0 ∧ K < C ∧ ¬(N < R ∧ N ≠ 0)) →
      initialize_field N K R C g F rp = Except.error "Invalid cols") ∧
    ((∃ s, initialize_field N K R C g F rp = Except.ok s) ↔
      (0 < R ∧ 0 < C ∧ (N ≠ 0 → R ≤ N) ∧ (K ≠ 0 → C ≤ K))) := by
  unfold initialize_field initCheck
  refine ⟨fun h => ?_, fun h => ?_, fun h => ?_, ?_, ?_⟩
  · by_cases h1 : N < R ∧ N ≠ 0
    · rw [if_pos h1]
      exact ⟨_, rfl⟩
    · rw [if_neg h1]
      by_cases h2 : K < C ∧ K ≠ 0
      · rw [if_pos h2]
        exact ⟨_, rfl⟩
      · rw [if_neg h2, if_pos h]
        exact ⟨_, rfl⟩
  · rw [if_pos ⟨h.2, h.1⟩]
  · rw [if_neg (fun hc => h.2.2 hc), if_pos ⟨h.2.1, h.1⟩]
  · rintro ⟨s, hs⟩
    by_cases h1 : N < R ∧ N ≠ 0
    · rw [if_pos h1] at hs
      exact absurd hs (by simp)
    · rw [if_neg h1] at hs
      by_cases h2 : K < C ∧ K ≠ 0
      · rw [if_pos h2] at hs
        exact absurd hs (by simp)
      · rw [if_neg h2] at hs
        by_cases h3 : R = 0 ∨ C = 0
        · rw [if_pos h3] at hs
          exact absurd hs (by simp)
        · push_neg at h3
          refine ⟨Nat.pos_of_ne_zero h3.1, Nat.pos_of_ne_zero h3.2, ?_, ?_⟩
          · intro hN
            by_contra hR
            exact h1 ⟨Nat.lt_of_not_le hR, hN⟩
          · intro hK
            by_contra hC
            exact h2 ⟨Nat.lt_of_not_le hC, hK⟩
  · rintro ⟨hR, hC, hN, hK⟩
    rw [if_neg, if_neg, if_neg]
    · exact ⟨_, rfl⟩
    · omega
    · intro hc
      exact absurd (hK hc.2) (Nat.not_le_of_lt hc.1)
    · intro hc
      exact absurd (hN hc.2) (Nat.not_le_of_lt hc.1)

/-- C10 (witness): the checks instantiated concretely: a zero extent is
rejected, an oversize row count is rejected by the static variant, and a
fitting positive pair is accepted. -/
theorem c10_dimension_checks_witness :
    (∃ e, initialize_field 0 0 0 5 1 [] [] = Except.error e) ∧
    initialize_field 3 4 7 2 1 [] [] = Except.error "Invalid rows" ∧
    (∃ s, initialize_field 3 4 2 2 1 [] [] = Except.ok s) := by
  refine ⟨(c10_dimension_checks 0 0 0 5 1 [] []).1 (Or.inl rfl),
    (c10_dimension_checks 3 4 7 2 1 [] []).2.1 ⟨by decide, by decide⟩,
    ((c10_dimension_checks 3 4 2 2 1 [] []).2.2.2).mpr ⟨by decide, by decide,
      fun _ => by decide, fun _ => by decide⟩⟩

/- ===== Projection lemmas for the state operations ===== -/

@[simp] theorem rows_setF (s : SimState) (x y : Nat) (c : Char) : (setF s x y c).rows = s.rows := rfl
@[simp] theorem cols_setF (s : SimState) (x y : Nat) (c : Char) : (setF s x y c).cols = s.cols := rfl
@[simp] theorem UT_setF (s : SimState) (x y : Nat) (c : Char) : (setF s x y c).UT = s.UT := rfl
@[simp] theorem rows_setPat (s : SimState) (x y : Nat) (q : Rat) : (setPat s x y q).rows = s.rows := rfl
@[simp] theorem cols_setPat (s : SimState) (x y : Nat) (q : Rat) : (setPat s x y q).cols = s.cols := rfl
@[simp] theorem UT_setPat (s : SimState) (x y : Nat) (q : Rat) : (setPat s x y q).UT = s.UT := rfl
@[simp] theorem rows_setVarr (s : SimState) (x y : Nat) (v : Vec4) : (setVarr s x y v).rows = s.rows := rfl
@[simp] theorem cols_setVarr (s : SimState) (x y : Nat) (v : Vec4) : (setVarr s x y v).cols = s.cols := rfl
@[simp] theorem UT_setVarr (s : SimState) (x y : Nat) (v : Vec4) : (setVarr s x y v).UT = s.UT := rfl
@[simp] theorem rows_setVFat (s : SimState) (x y i : Nat) (q : Rat) : (setVFat s x y i q).rows = s.rows := rfl
@[simp] theorem cols_setVFat (s : SimState) (x y i : Nat) (q : Rat) : (setVFat s x y i q).cols = s.cols := rfl
@[simp] theorem UT_setVFat (s : SimState) (x y i : Nat) (q : Rat) : (setVFat s x y i q).UT = s.UT := rfl
@[simp] theorem rows_setLU (s : SimState) (x y n : Nat) : (setLU s x y n).rows = s.rows := rfl
@[simp] theorem cols_setLU (s : SimState) (x y n : Nat) : (setLU s x y n).cols = s.cols := rfl
@[simp] theorem UT_setLU (s : SimState) (x y n : Nat) : (setLU s x y n).UT = s.UT := rfl

@[simp] theorem getF_setPat (s : SimState) (x y : Nat) (q : Rat) (a b : Nat) :
    getF (setPat s x y q) a b = getF s a b := rfl
@[simp] theorem getF_setVarr (s : SimState) (x y : Nat) (v : Vec4) (a b : Nat) :
    getF (setVarr s x y v) a b = getF s a b := rfl
@[simp] theorem getF_setVFat (s : SimState) (x y i : Nat) (q : Rat) (a b : Nat) :
    getF (setVFat s x y i q) a b = getF s a b := rfl
@[simp] theorem getF_setLU (s : SimState) (x y n : Nat) (a b : Nat) :
    getF (setLU s x y n) a b = getF s a b := rfl

@[simp] theorem getP_setF (s : SimState) (x y : Nat) (c : Char) (a b : Nat) :
    getP (setF s x y c) a b = getP s a b := rfl
@[simp] theorem getP_setVarr (s : SimState) (x y : Nat) (v : Vec4) (a b : Nat) :
    getP (setVarr s x y v) a b = getP s a b := rfl
@[simp] theorem getP_setVFat (s : SimState) (x y i : Nat) (q : Rat) (a b : Nat) :
    getP (setVFat s x y i q) a b = getP s a b := rfl
@[simp] theorem getP_setLU (s : SimState) (x y n : Nat) (a b : Nat) :
    getP (setLU s x y n) a b = getP s a b := rfl

@[simp] theorem getV_setF (s : SimState) (x y : Nat) (c : Char) (a b : Nat) :
    getV (setF s x y c) a b = getV s a b := rfl
@[simp] theorem getV_setPat (s : SimState) (x y : Nat) (q : Rat) (a b : Nat) :
    getV (setPat s x y q) a b = getV s a b := rfl
@[simp] theorem getV_setVFat (s : SimState) (x y i : Nat) (q : Rat) (a b : Nat) :
    getV (setVFat s x y i q) a b = getV s a b := rfl
@[simp] theorem getV_setLU (s : SimState) (x y n : Nat) (a b : Nat) :
    getV (setLU s x y n) a b = getV s a b := rfl

@[simp] theorem getVF_setF (s : SimState) (x y : Nat) (c : Char) (a b : Nat) :
    getVF (setF s x y c) a b = getVF s a b := rfl
@[simp] theorem getVF_setPat (s : SimState) (x y : Nat) (q : Rat) (a b : Nat) :
    getVF (setPat s x y q) a b = getVF s a b := rfl
@[simp] theorem getVF_setVarr (s : SimState) (x y : Nat) (v : Vec4) (a b : Nat) :
    getVF (setVarr s x y v) a b = getVF s a b := rfl
@[simp] theorem getVF_setLU (s : SimState) (x y n : Nat) (a b : Nat) :
    getVF (setLU s x y n) a b = getVF s a b := rfl

@[simp] theorem getLU_setF (s : SimState) (x y : Nat) (c : Char) (a b : Nat) :
    getLU (setF s x y c) a b = getLU s a b := rfl
@[simp] theorem getLU_setPat (s : SimState) (x y : Nat) (q : Rat) (a b : Nat) :
    getLU (setPat s x y q) a b = getLU s a b := rfl
@[simp] theorem getLU_setVarr (s : SimState) (x y : Nat) (v : Vec4) (a b : Nat) :
    getLU (setVarr s x y v) a b = getLU s a b := rfl
@[simp] theorem getLU_setVFat (s : SimState) (x y i : Nat) (q : Rat) (a b : Nat) :
    getLU (setVFat s x y i q) a b = getLU s a b := rfl

theorem getF_setF (s : SimState) (x y : Nat) (c : Char) (a b : Nat) :
    getF (setF s x y c) a b =
      if x = a ∧ y = b ∧ x < s.field_data.length ∧ y < (s.field_data.getD x []).length then c
      else getF s a b := gget_gset s.field_data x y a b c '#'

theorem getP_setPat (s : SimState) (x y : Nat) (q : Rat) (a b : Nat) :
    getP (setPat s x y q) a b =
      if x = a ∧ y = b ∧ x < s.p.length ∧ y < (s.p.getD x []).length then q
      else getP s a b := gget_gset s.p x y a b q 0

theorem getV_setVarr (s : SimState) (x y : Nat) (v : Vec4) (a b : Nat) :
    getV (setVarr s x y v) a b =
      if x = a ∧ y = b ∧ x < s.velocity.length ∧ y < (s.velocity.getD x []).length then v
      else getV s a b := gget_gset s.velocity x y a b v Vec4.zero

theorem getVF_setVFat (s : SimState) (x y i : Nat) (q : Rat) (a b : Nat) :
    getVF (setVFat s x y i q) a b =
      if x = a ∧ y = b ∧ x < s.velocity_flow.length ∧ y < (s.velocity_flow.getD x []).length
      then (getVF s x y).set i q
      else getVF s a b := gget_gset s.velocity_flow x y a b _ Vec4.zero

theorem getLU_setLU (s : SimState) (x y n : Nat) (a b : Nat) :
    getLU (setLU s x y n) a b =
      if x = a ∧ y = b ∧ x < s.last_use.length ∧ y < (s.last_use.getD x []).length then n
      else getLU s a b := gget_gset s.last_use x y a b n 0

theorem getF_setF_ne (s : SimState) (x y : Nat) (c : Char) (a b : Nat)
    (h : ¬(x = a ∧ y = b)) : getF (setF s x y c) a b = getF s a b :=
  gget_gset_ne s.field_data x y a b c '#' h

theorem getP_setPat_ne (s : SimState) (x y : Nat) (q : Rat) (a b : Nat)
    (h : ¬(x = a ∧ y = b)) : getP (setPat s x y q) a b = getP s a b :=
  gget_gset_ne s.p x y a b q 0 h

theorem getV_setVarr_ne (s : SimState) (x y : Nat) (v : Vec4) (a b : Nat)
    (h : ¬(x = a ∧ y = b)) : getV (setVarr s x y v) a b = getV s a b :=
  gget_gset_ne s.velocity x y a b v Vec4.zero h

theorem getVF_setVFat_ne (s : SimState) (x y i : Nat) (q : Rat) (a b : Nat)
    (h : ¬(x = a ∧ y = b)) : getVF (setVFat s x y i q) a b = getVF s a b :=
  gget_gset_ne s.velocity_flow x y a b _ Vec4.zero h

theorem getLU_setLU_ne (s : SimState) (x y n : Nat) (a b : Nat)
    (h : ¬(x = a ∧ y = b)) : getLU (setLU s x y n) a b = getLU s a b :=
  gget_gset_ne s.last_use x y a b n 0 h

/- ===== Generic traversal lemmas ===== -/

theorem foldl_fixed {α β : Type} (f : β → α → β) (b : β) (l : List α)
    (h : ∀ a ∈ l, f b a = b) : l.foldl f b = b := by
  induction l with
  | nil => rfl
  | cons hd tl ih =>
    rw [List.foldl_cons, h hd (List.mem_cons_self hd tl)]
    exact ih (fun a ha => h a (List.mem_cons_of_mem hd ha))

theorem mem_cellList (R C x y : Nat) : (x, y) ∈ cellList R C ↔ x < R ∧ y < C := by
  simp [cellList]

theorem getF_oob (s : SimState) (x y : Nat) (hd : fieldDims s)
    (h : s.rows ≤ x ∨ s.cols ≤ y) : getF s x y = '#' := by
  unfold getF gget
  by_cases hx : x < s.field_data.length
  · have hrow : (s.field_data.getD x []).length = s.cols := by
      rw [List.getD_eq_getElem s.field_data [] hx]
      exact hd.2 _ (List.getElem_mem hx)
    have hy : s.cols ≤ y := by
      rcases h with h | h
      · have h1 := hd.1
        omega
      · exact h
    rw [List.getD_eq_getElem?_getD (s.field_data.getD x []) y '#',
      List.getElem?_eq_none (by omega)]
    rfl
  · have hempty : s.field_data.getD x [] = [] := by
      rw [List.getD_eq_getElem?_getD s.field_data x [],
        List.getElem?_eq_none (Nat.le_of_not_lt hx)]
      rfl
    rw [hempty]
    rfl

theorem getFZ_natCast (s : SimState) (a b : Nat) :
    getFZ s ((a : Nat) : Int) ((b : Nat) : Int) = getF s a b := by
  unfold getFZ
  rw [if_pos ⟨Int.natCast_nonneg a, Int.natCast_nonneg b⟩]
  simp

theorem getLUZ_natCast (s : SimState) (a b : Nat) :
    getLUZ s ((a : Nat) : Int) ((b : Nat) : Int) = getLU s a b := by
  unfold getLUZ
  rw [if_pos ⟨Int.natCast_nonneg a, Int.natCast_nonneg b⟩]
  simp

/- ===== C9: grids with a single non-wall cell ===== -/

theorem pfGo_skip (rec : SimState → Nat → Nat → Rat → Option (SimState × Rat × Bool × (Nat × Nat)))
    (x y : Nat) (lim : Rat) (s : SimState) (ret : Rat) (i : Nat) (rest : List Nat)
    (h : ((x : Int) + (deltaAt i).1 < 0 ∨ (y : Int) + (deltaAt i).2 < 0 ∨
          (s.rows : Int) ≤ (x : Int) + (deltaAt i).1 ∨ (s.cols : Int) ≤ (y : Int) + (deltaAt i).2) ∨
        (¬((x : Int) + (deltaAt i).1 < 0 ∨ (y : Int) + (deltaAt i).2 < 0 ∨
          (s.rows : Int) ≤ (x : Int) + (deltaAt i).1 ∨ (s.cols : Int) ≤ (y : Int) + (deltaAt i).2) ∧
          getF s ((x : Int) + (deltaAt i).1).toNat ((y : Int) + (deltaAt i).2).toNat = '#')) :
    pfGo rec x y lim s ret (i :: rest) = pfGo rec x y lim s ret rest := by
  rcases h with hoob | ⟨hnoob, hwall⟩
  · simp only [pfGo]
    rw [if_pos hoob]
  · simp only [pfGo]
    rw [if_neg hnoob, if_pos hwall]

theorem single_skip (s : SimState) (cx cy : Nat) (_hd : fieldDims s)
    (hs : SingleNonWall s cx cy) (i : Nat) (hi : i < 4) :
    ((cx : Int) + (deltaAt i).1 < 0 ∨ (cy : Int) + (deltaAt i).2 < 0 ∨
      (s.rows : Int) ≤ (cx : Int) + (deltaAt i).1 ∨ (s.cols : Int) ≤ (cy : Int) + (deltaAt i).2) ∨
    (¬((cx : Int) + (deltaAt i).1 < 0 ∨ (cy : Int) + (deltaAt i).2 < 0 ∨
      (s.rows : Int) ≤ (cx : Int) + (deltaAt i).1 ∨ (s.cols : Int) ≤ (cy : Int) + (deltaAt i).2) ∧
      getF s ((cx : Int) + (deltaAt i).1).toNat ((cy : Int) + (deltaAt i).2).toNat = '#') := by
  by_cases hoob : ((cx : Int) + (deltaAt i).1 < 0 ∨ (cy : Int) + (deltaAt i).2 < 0 ∨
      (s.rows : Int) ≤ (cx : Int) + (deltaAt i).1 ∨ (s.cols : Int) ≤ (cy : Int) + (deltaAt i).2)
  · exact Or.inl hoob
  · refine Or.inr ⟨hoob, ?_⟩
    push_neg at hoob
    obtain ⟨h1, h2, h3, h4⟩ := hoob
    have hij : ¬(((cx : Int) + (deltaAt i).1).toNat = cx ∧ ((cy : Int) + (deltaAt i).2).toNat = cy) := by
      interval_cases i <;> simp only [deltaAt, deltasL, List.getD] at h1 h2 h3 h4 ⊢ <;>
        simp at h1 h2 h3 h4 ⊢ <;> omega
    exact hs.2 _ (by omega) _ (by omega) hij

theorem c9_center_in_bounds (s : SimState) (cx cy : Nat) (hd : fieldDims s)
    (hs : SingleNonWall s cx cy) : cx < s.rows ∧ cy < s.cols := by
  by_contra hc
  push_neg at hc
  have : s.rows ≤ cx ∨ s.cols ≤ cy := by omega
  exact hs.1 (getF_oob s cx cy hd this)

/-- C9 (counterexample): on the three-by-three grid whose only non-wall
cell is the center, with gravity 1, phase A leaves the south velocity of
the center at 0, not at g: gravity is added only when the south neighbor
is itself non-wall, and here it is a wall. -/
theorem c9_single_cell_no_gravity :
    singleCellState.g = 1 ∧ (getV (phaseA singleCellState) 1 1).get 1 = 0 ∧
    (0 : Rat) ≠ 1 := by
  refine ⟨rfl, by rfl, by decide⟩

/-- C9 (amended): on every grid holding exactly one non-wall cell, phase
A changes nothing (the south neighbor of the cell reads as a wall, so no
gravity is added), and every propagate_flow call at the cell commits no
flow: it returns t = 0 with the propagation flag false, touching only the
last-use stamp of the cell, and in particular the velocity-flow field is
unchanged. -/
theorem c9_amended (s : SimState) (cx cy : Nat) (hd : fieldDims s)
    (hs : SingleNonWall s cx cy) :
    phaseA s = s ∧
    ∀ fuel : Nat, ∀ lim : Rat, propagate_flow (fuel + 1) s cx cy lim =
      some (setLU (setLU s cx cy (s.UT - 1)) cx cy s.UT, 0, false, (0, 0)) ∧
      (setLU (setLU s cx cy (s.UT - 1)) cx cy s.UT).velocity_flow = s.velocity_flow := by
  obtain ⟨hcx, hcy⟩ := c9_center_in_bounds s cx cy hd hs
  constructor
  · apply foldl_fixed
    intro c hc
    obtain ⟨hc1, hc2⟩ := (mem_cellList s.rows s.cols c.1 c.2).mp hc
    by_cases hcenter : c.1 = cx ∧ c.2 = cy
    · rw [if_neg, if_neg]
      · have hsouth : getF s (c.1 + 1) c.2 = '#' := by
          by_cases hin : c.1 + 1 < s.rows ∧ c.2 < s.cols
          · exact hs.2 _ hin.1 _ hin.2 (by omega)
          · exact getF_oob s _ _ hd (by omega)
        rw [hsouth]
        simp
      · rw [hcenter.1, hcenter.2]
        exact hs.1
    · rw [if_pos (hs.2 c.1 hc1 c.2 hc2 hcenter)]
  · intro fuel lim
    constructor
    · simp only [propagate_flow]
      rw [if_neg]
      · have hskip : ∀ i, i < 4 →
            ∀ rest, pfGo (fun t a b l => propagate_flow fuel t a b l) cx cy lim
                (setLU s cx cy (s.UT - 1)) 0 (i :: rest) =
              pfGo (fun t a b l => propagate_flow fuel t a b l) cx cy lim
                (setLU s cx cy (s.UT - 1)) 0 rest := by
          intro i hi rest
          apply pfGo_skip
          exact single_skip (setLU s cx cy (s.UT - 1)) cx cy hd hs i hi
        rw [hskip 0 (by omega), hskip 1 (by omega), hskip 2 (by omega), hskip 3 (by omega)]
        rfl
      · push_neg
        refine ⟨by simpa using hcx, by simpa using hcy, ?_⟩
        simpa using hs.1
    · rfl

/-- C9 (witness): the amended theorem instantiated on the concrete
three-by-three single-cell grid, with fuel 1 and limit 1. -/
theorem c9_amended_witness :
    phaseA singleCellState = singleCellState ∧
    propagate_flow 1 singleCellState 1 1 1 =
      some (setLU (setLU singleCellState 1 1 (singleCellState.UT - 1)) 1 1 singleCellState.UT,
        0, false, (0, 0)) := by
  have h := c9_amended singleCellState 1 1 (by unfold fieldDims; exact ⟨by decide, by decide⟩)
    (by unfold SingleNonWall; exact ⟨by decide, by decide⟩)
  exact ⟨h.1, (h.2 0 1).1⟩

/- ===== C6: wall inviolability, preservation machinery ===== -/

theorem pres_refl (s : SimState) : Pres s s :=
  ⟨rfl, rfl, fun _ _ => Iff.rfl, fun _ hw => hw⟩

theorem pres_trans {s t u : SimState} (h1 : Pres s t) (h2 : Pres t u) : Pres s u :=
  ⟨h2.1.trans h1.1, h2.2.1.trans h1.2.1,
    fun a b => (h2.2.2.1 a b).trans (h1.2.2.1 a b),
    fun w hw => h2.2.2.2 w (h1.2.2.2 w hw)⟩

theorem pres_write_nonF (s t : SimState) (x y : Nat) (hwall : getF s x y ≠ '#')
    (hr : t.rows = s.rows) (hc : t.cols = s.cols)
    (hF : ∀ a b, getF t a b = getF s a b)
    (hP : ∀ a b, ¬(x = a ∧ y = b) → getP t a b = getP s a b)
    (hV : ∀ a b, ¬(x = a ∧ y = b) → getV t a b = getV s a b)
    (hVF : ∀ a b, ¬(x = a ∧ y = b) → getVF t a b = getVF s a b)
    (hLU : ∀ a b, ¬(x = a ∧ y = b) → getLU t a b = getLU s a b) :
    Pres s t := by
  refine ⟨hr, hc, fun a b => by rw [hF], fun w hw a b ha hb => ?_⟩
  have ha2 : a < s.rows := hr ▸ ha
  have hb2 : b < s.cols := hc ▸ hb
  refine ⟨by rw [hF]; exact (hw a b ha2 hb2).1, fun hww => ?_⟩
  have hne : ¬(x = a ∧ y = b) := fun hxy =>
    hwall (by rw [hxy.1, hxy.2]; exact (hw a b ha2 hb2).1.mpr hww)
  rw [hP _ _ hne, hV _ _ hne, hVF _ _ hne, hLU _ _ hne]
  exact (hw a b ha2 hb2).2 hww

theorem pres_setPat (s : SimState) (x y : Nat) (q : Rat) (hwall : getF s x y ≠ '#') :
    Pres s (setPat s x y q) :=
  pres_write_nonF s _ x y hwall rfl rfl (fun _ _ => rfl)
    (fun a b h => getP_setPat_ne s x y q a b h) (fun _ _ _ => rfl) (fun _ _ _ => rfl)
    (fun _ _ _ => rfl)

theorem pres_setVarr (s : SimState) (x y : Nat) (v : Vec4) (hwall : getF s x y ≠ '#') :
    Pres s (setVarr s x y v) :=
  pres_write_nonF s _ x y hwall rfl rfl (fun _ _ => rfl) (fun _ _ _ => rfl)
    (fun a b h => getV_setVarr_ne s x y v a b h) (fun _ _ _ => rfl) (fun _ _ _ => rfl)

theorem pres_setVat (s : SimState) (x y i : Nat) (q : Rat) (hwall : getF s x y ≠ '#') :
    Pres s (setVat s x y i q) :=
  pres_setVarr s x y _ hwall

theorem pres_velAdd (s : SimState) (x y i : Nat) (q : Rat) (hwall : getF s x y ≠ '#') :
    Pres s (velAdd s x y i q) :=
  pres_setVarr s x y _ hwall

theorem pres_setVFat (s : SimState) (x y i : Nat) (q : Rat) (hwall : getF s x y ≠ '#') :
    Pres s (setVFat s x y i q) :=
  pres_write_nonF s _ x y hwall rfl rfl (fun _ _ => rfl) (fun _ _ _ => rfl)
    (fun _ _ _ => rfl) (fun a b h => getVF_setVFat_ne s x y i q a b h) (fun _ _ _ => rfl)

theorem pres_vfAdd (s : SimState) (x y i : Nat) (q : Rat) (hwall : getF s x y ≠ '#') :
    Pres s (vfAdd s x y i q) :=
  pres_setVFat s x y i _ hwall

theorem pres_setLU (s : SimState) (x y n : Nat) (hwall : getF s x y ≠ '#') :
    Pres s (setLU s x y n) :=
  pres_write_nonF s _ x y hwall rfl rfl (fun _ _ => rfl) (fun _ _ _ => rfl)
    (fun _ _ _ => rfl) (fun _ _ _ => rfl) (fun a b h => getLU_setLU_ne s x y n a b h)

theorem getF_setF_iff (s : SimState) (x y : Nat) (c : Char) (hwall : getF s x y ≠ '#')
    (hc2 : c ≠ '#') (a b : Nat) : (getF (setF s x y c) a b = '#') ↔ (getF s a b = '#') := by
  rw [getF_setF]
  split
  · rename_i hcond
    obtain ⟨rfl, rfl, _, _⟩ := hcond
    exact ⟨fun h => absurd h hc2, fun h => absurd h hwall⟩
  · exact Iff.rfl

theorem pres_setF (s : SimState) (x y : Nat) (c : Char) (hwall : getF s x y ≠ '#')
    (hc2 : c ≠ '#') : Pres s (setF s x y c) := by
  refine ⟨rfl, rfl, getF_setF_iff s x y c hwall hc2, fun w hw a b ha hb => ?_⟩
  refine ⟨(getF_setF_iff s x y c hwall hc2 a b).trans (hw a b ha hb).1, fun hww => ?_⟩
  exact (hw a b ha hb).2 hww

theorem pres_oldp (s : SimState) (X : List (List Rat)) : Pres s { s with old_p := X } :=
  ⟨rfl, rfl, fun _ _ => Iff.rfl, fun _ hw => hw⟩

theorem pres_UT (s : SimState) (n : Nat) : Pres s { s with UT := n } :=
  ⟨rfl, rfl, fun _ _ => Iff.rfl, fun _ hw => hw⟩

theorem pres_rng (s : SimState) (n : Nat) : Pres s { s with rngIdx := n } :=
  ⟨rfl, rfl, fun _ _ => Iff.rfl, fun _ hw => hw⟩

theorem pres_vfReset (s : SimState) : Pres s (vfReset s) := by
  refine ⟨rfl, rfl, fun _ _ => Iff.rfl, fun w hw a b ha hb => ?_⟩
  refine ⟨(hw a b ha hb).1, fun hww => ?_⟩
  obtain ⟨h1, h2, _, h4⟩ := (hw a b ha hb).2 hww
  refine ⟨h1, h2, ?_, h4⟩
  show gget (List.replicate s.rows (List.replicate s.cols Vec4.zero)) a b Vec4.zero = Vec4.zero
  rw [gget_replicate]
  split <;> rfl

theorem foldl_pres_inv {α : Type} (f : SimState → α → SimState) (l : List α)
    (Q : SimState → Prop)
    (hstep : ∀ s a, a ∈ l → Q s → Pres s (f s a) ∧ Q (f s a)) :
    ∀ s, Q s → Pres s (l.foldl f s) ∧ Q (l.foldl f s) := by
  induction l with
  | nil => exact fun s hq => ⟨pres_refl s, hq⟩
  | cons hd tl ih =>
    intro s hq
    obtain ⟨hp1, hq1⟩ := hstep s hd (List.mem_cons_self hd tl) hq
    obtain ⟨hp2, hq2⟩ := ih (fun t a ha hqt => hstep t a (List.mem_cons_of_mem hd ha) hqt)
      (f s hd) hq1
    exact ⟨pres_trans hp1 hp2, hq2⟩

@[simp] theorem getF_setVat (s : SimState) (x y i : Nat) (q : Rat) (a b : Nat) :
    getF (setVat s x y i q) a b = getF s a b := rfl
@[simp] theorem getF_velAdd (s : SimState) (x y i : Nat) (q : Rat) (a b : Nat) :
    getF (velAdd s x y i q) a b = getF s a b := rfl
@[simp] theorem getF_vfAdd (s : SimState) (x y i : Nat) (q : Rat) (a b : Nat) :
    getF (vfAdd s x y i q) a b = getF s a b := rfl

theorem pres_phaseA (s : SimState) : Pres s (phaseA s) := by
  unfold phaseA
  refine (foldl_pres_inv _ _ (fun _ => True) ?_ s trivial).1
  intro t c _ _
  refine ⟨?_, trivial⟩
  by_cases h1 : getF t c.1 c.2 = '#'
  · rw [if_pos h1]
    exact pres_refl t
  · rw [if_neg h1]
    by_cases h2 : getF t (c.1 + 1) c.2 ≠ '#'
    · rw [if_pos h2]
      exact pres_velAdd t c.1 c.2 1 t.g h1
    · rw [if_neg h2]
      exact pres_refl t

theorem pres_phaseBStep (dirs : Nat → Nat → Nat) (x y : Nat) (t : SimState) (i : Nat)
    (hq : getF t x y ≠ '#') : Pres t (phaseBStep dirs x y t i) := by
  dsimp only [phaseBStep]
  split_ifs with h1 h2 h3
  · exact pres_refl t
  · exact pres_setVat t _ _ (revIdx i) _ h2.1
  · exact pres_trans (pres_setVat t _ _ (revIdx i) 0 h2.1)
      (pres_trans (pres_velAdd _ x y i _ hq) (pres_setPat _ x y _ hq))
  · exact pres_refl t

theorem pres_phaseB (dirs : Nat → Nat → Nat) (s : SimState) : Pres s (phaseB dirs s) := by
  unfold phaseB
  refine pres_trans (pres_oldp s s.p) ?_
  refine (foldl_pres_inv _ _ (fun _ => True) ?_ _ trivial).1
  intro t c _ _
  refine ⟨?_, trivial⟩
  by_cases h1 : getF t c.1 c.2 = '#'
  · rw [if_pos h1]
    exact pres_refl t
  · rw [if_neg h1]
    exact (foldl_pres_inv _ _ (fun u => getF u c.1 c.2 ≠ '#')
      (fun u i _ hqu => by
        have hp := pres_phaseBStep dirs c.1 c.2 u i hqu
        exact ⟨hp, fun hcc => hqu ((hp.2.2.1 c.1 c.2).mp hcc)⟩) t h1).1

theorem pres_creditStep (dirs : Nat → Nat → Nat) (x y : Nat) (t : SimState) (i : Nat)
    (hq : getF t x y ≠ '#') : Pres t (creditStep dirs x y t i) := by
  dsimp only [creditStep]
  split_ifs <;>
    first
      | exact pres_refl t
      | exact pres_trans (pres_setVat t x y i _ hq) (pres_setPat _ x y _ hq)
      | (rename_i hnw hdamp
         exact pres_trans (pres_setVat t x y i _ hq) (pres_setPat _ _ _ _ hnw))

theorem pres_phaseCredit (dirs : Nat → Nat → Nat) (s : SimState) :
    Pres s (phaseCredit dirs s) := by
  unfold phaseCredit
  refine (foldl_pres_inv _ _ (fun _ => True) ?_ s trivial).1
  intro t c _ _
  refine ⟨?_, trivial⟩
  by_cases h1 : getF t c.1 c.2 = '#'
  · rw [if_pos h1]
    exact pres_refl t
  · rw [if_neg h1]
    exact (foldl_pres_inv _ _ (fun u => getF u c.1 c.2 ≠ '#')
      (fun u i _ hqu => by
        have hp := pres_creditStep dirs c.1 c.2 u i hqu
        exact ⟨hp, fun hcc => hqu ((hp.2.2.1 c.1 c.2).mp hcc)⟩) t h1).1

theorem pres_pfGo
    (rec : SimState → Nat → Nat → Rat → Option (SimState × Rat × Bool × (Nat × Nat)))
    (hrec : ∀ t a b l out, getF t a b ≠ '#' → rec t a b l = some out → Pres t out.1)
    (x y : Nat) (lim : Rat) :
    ∀ (dl : List Nat) (s : SimState) (ret : Rat) (out : SimState × Rat × Bool × (Nat × Nat)),
      getF s x y ≠ '#' → pfGo rec x y lim s ret dl = some out → Pres s out.1 := by
  intro dl
  induction dl with
  | nil =>
    intro s ret out hq hout
    simp only [pfGo] at hout
    cases hout
    exact pres_setLU s x y s.UT hq
  | cons i rest ih =>
    intro s ret out hq hout
    simp only [pfGo] at hout
    split_ifs at hout with h1 h2 h3 h4 h5
    · exact ih s ret out hq hout
    · exact ih s ret out hq hout
    · exact ih s ret out hq hout
    · cases hout
      exact pres_trans (pres_vfAdd s x y i _ hq) (pres_setLU _ x y _ hq)
    · cases hcall : rec s ((x : Int) + (deltaAt i).1).toNat ((y : Int) + (deltaAt i).2).toNat
        (min lim ((getV s x y).get i - (getVF s x y).get i)) with
      | none =>
        rw [hcall] at hout
        exact absurd hout (by simp)
      | some r1 =>
        rw [hcall] at hout
        have hpr : Pres s r1.1 := hrec s _ _ _ r1 h3.1 hcall
        have hq1 : getF r1.1 x y ≠ '#' := fun hcc => hq ((hpr.2.2.1 x y).mp hcc)
        dsimp only at hout
        split_ifs at hout with h6
        · cases hout
          exact pres_trans hpr
            (pres_trans (pres_vfAdd r1.1 x y i _ hq1) (pres_setLU _ x y _ hq1))
        · exact pres_trans hpr (ih r1.1 _ out hq1 hout)
    · exact ih s ret out hq hout

theorem pres_propagate_flow :
    ∀ (fuel : Nat) (s : SimState) (x y : Nat) (lim : Rat)
      (out : SimState × Rat × Bool × (Nat × Nat)),
      getF s x y ≠ '#' → propagate_flow fuel s x y lim = some out → Pres s out.1 := by
  intro fuel
  induction fuel with
  | zero =>
    intro s x y lim out _ hout
    exact absurd hout (by simp [propagate_flow])
  | succ f ih =>
    intro s x y lim out hq hout
    simp only [propagate_flow] at hout
    have hq1 : getF (setLU s x y (s.UT - 1)) x y ≠ '#' := hq
    have hpre : Pres s (setLU s x y (s.UT - 1)) := pres_setLU s x y _ hq
    split_ifs at hout with h1
    · cases hout
      exact hpre
    · exact pres_trans hpre
        (pres_pfGo _ (fun t a b l o hqt ho => ih t a b l o hqt ho) x y lim _ _ _ _ hq1 hout)

theorem pres_psGo (rec : SimState → Nat → Nat → Option SimState)
    (hrec : ∀ t a b out, getF t a b ≠ '#' → rec t a b = some out → Pres t out) (x y : Nat) :
    ∀ (dl : List Nat) (s : SimState) (out : SimState),
      psGo rec x y s dl = some out → Pres s out := by
  intro dl
  induction dl with
  | nil =>
    intro s out hout
    simp only [psGo] at hout
    cases hout
    exact pres_refl s
  | cons i rest ih =>
    intro s out hout
    simp only [psGo] at hout
    split_ifs at hout with h1 h2
    · exact ih s out hout
    · exact ih s out hout
    · cases hcall : rec s ((x : Int) + (deltaAt i).1).toNat ((y : Int) + (deltaAt i).2).toNat with
      | none =>
        rw [hcall] at hout
        exact absurd hout (by simp)
      | some s1 =>
        rw [hcall] at hout
        have hnw : getF s ((x : Int) + (deltaAt i).1).toNat ((y : Int) + (deltaAt i).2).toNat ≠ '#' := by
          intro hcc
          exact h2 (Or.inl hcc)
        exact pres_trans (hrec s _ _ s1 hnw hcall) (ih s1 out hout)

theorem pres_propagate_stop :
    ∀ (fuel : Nat) (s : SimState) (x y : Nat) (force : Bool) (out : SimState),
      getF s x y ≠ '#' → propagate_stop fuel s x y force = some out → Pres s out := by
  intro fuel
  induction fuel with
  | zero =>
    intro s x y force out _ hout
    exact absurd hout (by simp [propagate_stop])
  | succ f ih =>
    intro s x y force out hq hout
    simp only [propagate_stop] at hout
    split_ifs at hout with h1
    · cases hout
      exact pres_refl s
    · exact pres_trans (pres_setLU s x y s.UT hq)
        (pres_psGo _ (fun t a b o hqt ho => ih t a b false o hqt ho) x y _ _ _ hout)

theorem getFZ_toNat (s : SimState) (x y : Int) (hx : 0 ≤ x) (hy : 0 ≤ y) :
    getFZ s x y = getF s x.toNat y.toNat := by
  unfold getFZ
  rw [if_pos ⟨hx, hy⟩]

theorem getLUZ_toNat (s : SimState) (x y : Int) (hx : 0 ≤ x) (hy : 0 ≤ y) :
    getLUZ s x y = getLU s x.toNat y.toNat := by
  unfold getLUZ
  rw [if_pos ⟨hx, hy⟩]

theorem pmStep_inv (s : SimState) (x y : Nat) (i : Nat) (hi : i < 4) (acc : Vec4 × Rat)
    (h : 0 ≤ acc.2 ∧
      (0 < acc.2 → ∃ j, j < 4 ∧ acc.1.get j = acc.2 ∧ Allowed s x y j) ∧
      (∀ j, 0 < acc.1.get j → j < 4 ∧ Allowed s x y j)) :
    0 ≤ (pmStep s x y acc i).2 ∧
      (0 < (pmStep s x y acc i).2 → ∃ j, j < 4 ∧
        (pmStep s x y acc i).1.get j = (pmStep s x y acc i).2 ∧ Allowed s x y j) ∧
      (∀ j, 0 < (pmStep s x y acc i).1.get j → j < 4 ∧ Allowed s x y j) := by
  dsimp only [pmStep]
  split_ifs with h1 h2 h3
  · exact h
  · exact h
  · have hall : Allowed s x y i := by
      push_neg at h1 h2
      exact ⟨h1.1, h1.2.1, h1.2.2.1, h1.2.2.2, h2.1, h2.2⟩
    refine ⟨h.1, fun hpos => ⟨i, hi, ?_, hall⟩, fun j hj => ?_⟩
    · rw [vec4_get_set, if_pos ⟨rfl, hi⟩]
    · rw [vec4_get_set] at hj
      by_cases hij : i = j ∧ i < 4
      · rw [if_pos hij] at hj
        exact hij.1 ▸ ⟨hi, hall⟩
      · rw [if_neg hij] at hj
        exact h.2.2 j hj
  · have hall : Allowed s x y i := by
      push_neg at h1 h2
      exact ⟨h1.1, h1.2.1, h1.2.2.1, h1.2.2.2, h2.1, h2.2⟩
    have hv : 0 ≤ (getV s x y).get i := le_of_not_lt h3
    refine ⟨by have := h.1; positivity, fun hpos => ⟨i, hi, ?_, hall⟩, fun j hj => ?_⟩
    · rw [vec4_get_set, if_pos ⟨rfl, hi⟩]
    · rw [vec4_get_set] at hj
      by_cases hij : i = j ∧ i < 4
      · rw [if_pos hij] at hj
        exact hij.1 ▸ ⟨hi, hall⟩
      · rw [if_neg hij] at hj
        exact h.2.2 j hj

theorem pmThresholds_inv (s : SimState) (x y : Nat) :
    0 ≤ (pmThresholds s x y).2 ∧
      (0 < (pmThresholds s x y).2 → ∃ j, j < 4 ∧
        (pmThresholds s x y).1.get j = (pmThresholds s x y).2 ∧ Allowed s x y j) ∧
      (∀ j, 0 < (pmThresholds s x y).1.get j → j < 4 ∧ Allowed s x y j) := by
  have hbase : 0 ≤ ((Vec4.zero, (0 : Rat)) : Vec4 × Rat).2 ∧
      (0 < ((Vec4.zero, (0 : Rat)) : Vec4 × Rat).2 → ∃ j, j < 4 ∧
        ((Vec4.zero, (0 : Rat)) : Vec4 × Rat).1.get j =
          ((Vec4.zero, (0 : Rat)) : Vec4 × Rat).2 ∧ Allowed s x y j) ∧
      (∀ j, 0 < ((Vec4.zero, (0 : Rat)) : Vec4 × Rat).1.get j → j < 4 ∧ Allowed s x y j) := by
    refine ⟨le_refl 0, fun hpos => absurd hpos (lt_irrefl 0), fun j hj => ?_⟩
    rw [vec4_get_zero] at hj
    exact absurd hj (lt_irrefl 0)
  have hfold : pmThresholds s x y =
      pmStep s x y (pmStep s x y (pmStep s x y (pmStep s x y (Vec4.zero, 0) 0) 1) 2) 3 := rfl
  rw [hfold]
  exact pmStep_inv s x y 3 (by omega) _ (pmStep_inv s x y 2 (by omega) _
    (pmStep_inv s x y 1 (by omega) _ (pmStep_inv s x y 0 (by omega) _ hbase)))

theorem pmSelect_allowed (s : SimState) (x y : Nat) (r : Rat) (hr : 0 ≤ r)
    (hlt : r < (pmThresholds s x y).2) :
    pmSelect (pmThresholds s x y).1 r < 4 ∧
      Allowed s x y (pmSelect (pmThresholds s x y).1 r) := by
  obtain ⟨hnn, hex, hall⟩ := pmThresholds_inv s x y
  unfold pmSelect
  split_ifs with h1 h2 h3 h4
  · exact ⟨by omega, (hall 0 (lt_of_le_of_lt hr h1)).2⟩
  · exact ⟨by omega, (hall 1 (lt_of_le_of_lt hr h2)).2⟩
  · exact ⟨by omega, (hall 2 (lt_of_le_of_lt hr h3)).2⟩
  · exact ⟨by omega, (hall 3 (lt_of_le_of_lt hr h4)).2⟩
  · exfalso
    obtain ⟨j, hj4, hje, hja⟩ := hex (lt_of_le_of_lt hr hlt)
    interval_cases j
    · exact h1 (by rw [show (pmThresholds s x y).1.a = (pmThresholds s x y).1.get 0 from rfl, hje]; exact hlt)
    · exact h2 (by rw [show (pmThresholds s x y).1.b = (pmThresholds s x y).1.get 1 from rfl, hje]; exact hlt)
    · exact h3 (by rw [show (pmThresholds s x y).1.c = (pmThresholds s x y).1.get 2 from rfl, hje]; exact hlt)
    · exact h4 (by rw [show (pmThresholds s x y).1.d = (pmThresholds s x y).1.get 3 from rfl, hje]; exact hlt)

theorem allowed_target (s : SimState) (x y i : Nat) (h : Allowed s x y i) :
    ((x : Int) + (deltaAt i).1).toNat < s.rows ∧ ((y : Int) + (deltaAt i).2).toNat < s.cols ∧
    getF s ((x : Int) + (deltaAt i).1).toNat ((y : Int) + (deltaAt i).2).toNat ≠ '#' ∧
    getLU s ((x : Int) + (deltaAt i).1).toNat ((y : Int) + (deltaAt i).2).toNat ≠ s.UT := by
  obtain ⟨h1, h2, h3, h4, h5, h6⟩ := h
  refine ⟨by omega, by omega, ?_, ?_⟩
  · rw [← getFZ_toNat s _ _ h1 h2]
    exact h5
  · rw [← getLUZ_toNat s _ _ h1 h2]
    exact h6

theorem swapWith_first_eq (s : SimState) (pp : PP) (x y : Nat) :
    (swapWith s pp x y).1 = setPat (setF s x y pp.type) x y pp.cur_p := by
  show setVarr (setPat (setF s x y pp.type) x y pp.cur_p) x y
      (getV (setPat (setF s x y pp.type) x y pp.cur_p) x y) = _
  unfold setVarr getV
  rw [gset_gget_self]

theorem pres_swapWith (s : SimState) (pp : PP) (x y : Nat) (hwall : getF s x y ≠ '#')
    (hpp : pp.type ≠ '#') :
    Pres s (swapWith s pp x y).1 ∧ (swapWith s pp x y).2.type = getF s x y := by
  constructor
  · rw [swapWith_first_eq]
    have hq2 : getF (setF s x y pp.type) x y ≠ '#' := by
      rw [getF_setF]
      split
      · exact hpp
      · exact hwall
    exact pres_trans (pres_setF s x y pp.type hwall hpp) (pres_setPat _ x y pp.cur_p hq2)
  · rfl

theorem pres_rotate (s : SimState) (x y tx ty : Nat) (h1 : getF s x y ≠ '#')
    (h2 : getF s tx ty ≠ '#') : Pres s (rotate s x y tx ty) := by
  obtain ⟨p1, t1⟩ := pres_swapWith s ⟨Char.ofNat 0, 0, Vec4.zero⟩ x y h1 (by decide)
  have h2b : getF (swapWith s ⟨Char.ofNat 0, 0, Vec4.zero⟩ x y).1 tx ty ≠ '#' :=
    fun hc => h2 ((p1.2.2.1 tx ty).mp hc)
  obtain ⟨p2, t2⟩ := pres_swapWith (swapWith s ⟨Char.ofNat 0, 0, Vec4.zero⟩ x y).1
    (swapWith s ⟨Char.ofNat 0, 0, Vec4.zero⟩ x y).2 tx ty h2b (by rw [t1]; exact h1)
  have h1c : getF (swapWith (swapWith s ⟨Char.ofNat 0, 0, Vec4.zero⟩ x y).1
      (swapWith s ⟨Char.ofNat 0, 0, Vec4.zero⟩ x y).2 tx ty).1 x y ≠ '#' :=
    fun hc => h1 ((p1.2.2.1 x y).mp ((p2.2.2.1 x y).mp hc))
  obtain ⟨p3, _⟩ := pres_swapWith (swapWith (swapWith s ⟨Char.ofNat 0, 0, Vec4.zero⟩ x y).1
      (swapWith s ⟨Char.ofNat 0, 0, Vec4.zero⟩ x y).2 tx ty).1
    (swapWith (swapWith s ⟨Char.ofNat 0, 0, Vec4.zero⟩ x y).1
      (swapWith s ⟨Char.ofNat 0, 0, Vec4.zero⟩ x y).2 tx ty).2 x y h1c (by rw [t2]; exact h2b)
  exact pres_trans p1 (pres_trans p2 p3)

theorem pres_pmStops (stopF : SimState → Nat → Nat → Option SimState)
    (hrec : ∀ t a b out, getF t a b ≠ '#' → stopF t a b = some out → Pres t out) (x y : Nat) :
    ∀ (dl : List Nat) (s : SimState) (out : SimState),
      pmStops stopF x y s dl = some out → Pres s out := by
  intro dl
  induction dl with
  | nil =>
    intro s out hout
    simp only [pmStops] at hout
    cases hout
    exact pres_refl s
  | cons i rest ih =>
    intro s out hout
    simp only [pmStops] at hout
    split_ifs at hout with h1
    · cases hcall : stopF s ((x : Int) + (deltaAt i).1).toNat ((y : Int) + (deltaAt i).2).toNat with
      | none =>
        rw [hcall] at hout
        exact absurd hout (by simp)
      | some s1 =>
        rw [hcall] at hout
        have hnw : getF s ((x : Int) + (deltaAt i).1).toNat ((y : Int) + (deltaAt i).2).toNat ≠ '#' := by
          rw [← getFZ_toNat s _ _ h1.1 h1.2.1]
          exact h1.2.2.2.2.1
        exact pres_trans (hrec s _ _ s1 hnw hcall) (ih s1 out hout)
    · exact ih s out hout

theorem pres_pmLoop (rec : SimState → Nat → Nat → Option (SimState × Bool)) (rng : Nat → Rat)
    (hrng : RngOk rng) (x y : Nat)
    (hrec : ∀ t a b out2, getF t a b ≠ '#' → rec t a b = some out2 → Pres t out2.1) :
    ∀ (f : Nat) (s : SimState) (out : SimState × Bool × Option (Nat × Nat)),
      getF s x y ≠ '#' → pmLoop rec rng x y f s = some out →
      Pres s out.1 ∧ ∀ t2, out.2.2 = some t2 → getF out.1 t2.1 t2.2 ≠ '#' := by
  intro f
  induction f with
  | zero =>
    intro s out _ hout
    exact absurd hout (by simp [pmLoop])
  | succ f ih =>
    intro s out hq hout
    simp only [pmLoop] at hout
    split_ifs at hout with h1 h2 h3
    · cases hout
      exact ⟨pres_refl s, fun t2 ht2 => by simp at ht2⟩
    · have hq1 : getF { s with rngIdx := s.rngIdx + 1 } x y ≠ '#' := hq
      obtain ⟨hp, ht⟩ := ih { s with rngIdx := s.rngIdx + 1 } out hq1 hout
      exact ⟨pres_trans (pres_rng s _) hp, ht⟩
    · -- frontier commit: target allowed
      have hsum : 0 < (pmThresholds s x y).2 :=
        lt_of_le_of_ne (pmThresholds_inv s x y).1 (fun he => h1 he.symm)
      have hrpos : 0 ≤ rng s.rngIdx * (pmThresholds s x y).2 :=
        mul_nonneg (hrng s.rngIdx).1 (le_of_lt hsum)
      have hrlt : rng s.rngIdx * (pmThresholds s x y).2 < (pmThresholds s x y).2 :=
        mul_lt_of_lt_one_left hsum (hrng s.rngIdx).2
      obtain ⟨_, hall⟩ := pmSelect_allowed s x y _ hrpos hrlt
      obtain ⟨_, _, hfnw, _⟩ := allowed_target s x y _ hall
      cases hout
      refine ⟨pres_rng s _, fun t2 ht2 => ?_⟩
      cases ht2
      exact hfnw
    · cases hcall : rec { s with rngIdx := s.rngIdx + 1 }
        ((x : Int) + (deltaAt (pmSelect (pmThresholds s x y).1
          (rng s.rngIdx * (pmThresholds s x y).2))).1).toNat
        ((y : Int) + (deltaAt (pmSelect (pmThresholds s x y).1
          (rng s.rngIdx * (pmThresholds s x y).2))).2).toNat with
      | none =>
        rw [hcall] at hout
        exact absurd hout (by simp)
      | some r2 =>
        rw [hcall] at hout
        obtain ⟨s2, b⟩ := r2
        have hsum : 0 < (pmThresholds s x y).2 :=
          lt_of_le_of_ne (pmThresholds_inv s x y).1 (fun he => h1 he.symm)
        have hrpos : 0 ≤ rng s.rngIdx * (pmThresholds s x y).2 :=
          mul_nonneg (hrng s.rngIdx).1 (le_of_lt hsum)
        have hrlt : rng s.rngIdx * (pmThresholds s x y).2 < (pmThresholds s x y).2 :=
          mul_lt_of_lt_one_left hsum (hrng s.rngIdx).2
        obtain ⟨_, hall⟩ := pmSelect_allowed s x y _ hrpos hrlt
        obtain ⟨_, _, hfnw, _⟩ := allowed_target s x y _ hall
        have hpcall : Pres { s with rngIdx := s.rngIdx + 1 } (s2, b).1 :=
          hrec _ _ _ (s2, b) hfnw hcall
        have hp01 : Pres s (s2, b).1 := pres_trans (pres_rng s _) hpcall
        dsimp only at hout
        split_ifs at hout with h4
        · cases hout
          refine ⟨hp01, fun t2 ht2 => ?_⟩
          cases ht2
          exact fun hc => hfnw ((hpcall.2.2.1 _ _).mp hc)
        · have hq2 : getF s2 x y ≠ '#' := fun hc => hq ((hp01.2.2.1 x y).mp hc)
          obtain ⟨hp, ht⟩ := ih s2 out hq2 hout
          exact ⟨pres_trans hp01 hp, ht⟩

theorem pres_propagate_move (rng : Nat → Rat) (hrng : RngOk rng) :
    ∀ (fuel : Nat) (s : SimState) (x y : Nat) (isF : Bool) (depth : Nat)
      (out : SimState × Bool),
      getF s x y ≠ '#' → propagate_move rng fuel s x y isF depth = some out →
      Pres s out.1 := by
  intro fuel
  induction fuel with
  | zero =>
    intro s x y isF depth out _ hout
    exact absurd hout (by simp [propagate_move])
  | succ f ih =>
    intro s x y isF depth out hq hout
    simp only [propagate_move] at hout
    have hp1 : Pres s (setLU s x y (s.UT - if isF then 1 else 0)) := pres_setLU s x y _ hq
    have hq1 : getF (setLU s x y (s.UT - if isF then 1 else 0)) x y ≠ '#' := hq
    by_cases h1 : 1000 < depth
    · rw [if_pos h1] at hout
      cases hout
      exact hp1
    · rw [if_neg h1] at hout
      cases hcall : pmLoop (fun t a b => propagate_move rng f t a b false (depth + 1)) rng x y f
        (setLU s x y (s.UT - if isF then 1 else 0)) with
      | none =>
        rw [hcall] at hout
        exact absurd hout (by simp)
      | some out2 =>
        rw [hcall] at hout
        obtain ⟨s2, ret, tgt⟩ := out2
        obtain ⟨hp2, htgt⟩ := pres_pmLoop _ rng hrng x y
          (fun t a b o hqt ho => ih t a b false (depth + 1) o hqt ho) f _ (s2, ret, tgt) hq1 hcall
        have hq2 : getF s2 x y ≠ '#' := fun hc => hq1 ((hp2.2.2.1 x y).mp hc)
        have hp3 : Pres s2 (setLU s2 x y s2.UT) := pres_setLU s2 x y _ hq2
        dsimp only at hout
        cases hstop : pmStops (fun t a b => propagate_stop f t a b false) x y
            (setLU s2 x y s2.UT) [0, 1, 2, 3] with
        | none =>
          rw [hstop] at hout
          exact absurd hout (by simp)
        | some s4 =>
          rw [hstop] at hout
          have hp4 : Pres (setLU s2 x y s2.UT) s4 :=
            pres_pmStops _ (fun t a b o hqt ho => pres_propagate_stop f t a b false o hqt ho)
              x y _ _ s4 hstop
          have hchain : Pres s s4 :=
            pres_trans hp1 (pres_trans hp2 (pres_trans hp3 hp4))
          split_ifs at hout with h5
          · cases tgt with
            | none =>
              cases hout
              exact hchain
            | some t2 =>
              cases hout
              have hft2 : getF s2 t2.1 t2.2 ≠ '#' := htgt t2 rfl
              have hft4 : getF s4 t2.1 t2.2 ≠ '#' := fun hc =>
                hft2 ((hp3.2.2.1 t2.1 t2.2).mp ((hp4.2.2.1 t2.1 t2.2).mp hc))
              have hq4 : getF s4 x y ≠ '#' := fun hc =>
                hq2 ((hp3.2.2.1 x y).mp ((hp4.2.2.1 x y).mp hc))
              exact pres_trans hchain (pres_rotate s4 x y t2.1 t2.2 hq4 hft4)
          · cases hout
            exact hchain

theorem pres_phaseCsweep (fuel : Nat) :
    ∀ (cells : List (Nat × Nat)) (s : SimState) (pr : Bool) (out : SimState × Bool),
      phaseCsweep fuel s pr cells = some out → Pres s out.1 := by
  intro cells
  induction cells with
  | nil =>
    intro s pr out hout
    simp only [phaseCsweep] at hout
    cases hout
    exact pres_refl s
  | cons c rest ih =>
    intro s pr out hout
    simp only [phaseCsweep] at hout
    split_ifs at hout with h1
    · cases hcall : propagate_flow fuel s c.1 c.2 1 with
      | none =>
        rw [hcall] at hout
        exact absurd hout (by simp)
      | some r1 =>
        rw [hcall] at hout
        obtain ⟨s1, t, pb, e⟩ := r1
        exact pres_trans (pres_propagate_flow fuel s c.1 c.2 1 (s1, t, pb, e) h1.1 hcall)
          (ih s1 _ out hout)
    · exact ih s pr out hout

theorem pres_phaseCloop (fuel : Nat) :
    ∀ (n : Nat) (s : SimState) (out : SimState),
      phaseCloop fuel n s = some out → Pres s out := by
  intro n
  induction n with
  | zero =>
    intro s out hout
    exact absurd hout (by simp [phaseCloop])
  | succ n ih =>
    intro s out hout
    simp only [phaseCloop] at hout
    cases hcall : phaseCsweep fuel { s with UT := s.UT + 2 } false
        (cellList { s with UT := s.UT + 2 }.rows { s with UT := s.UT + 2 }.cols) with
    | none =>
      rw [hcall] at hout
      exact absurd hout (by simp)
    | some r1 =>
      rw [hcall] at hout
      obtain ⟨s2, pr⟩ := r1
      have hp : Pres s s2 :=
        pres_trans (pres_UT s (s.UT + 2)) (pres_phaseCsweep fuel _ _ _ (s2, pr) hcall)
      cases pr with
      | true =>
        exact pres_trans hp (ih s2 out hout)
      | false =>
        cases hout
        exact hp

theorem pres_phaseDGo (rng : Nat → Rat) (hrng : RngOk rng) (fuel : Nat) :
    ∀ (cells : List (Nat × Nat)) (s : SimState) (pr : Bool) (out : SimState × Bool),
      phaseDGo rng fuel s pr cells = some out → Pres s out.1 := by
  intro cells
  induction cells with
  | nil =>
    intro s pr out hout
    simp only [phaseDGo] at hout
    cases hout
    exact pres_refl s
  | cons c rest ih =>
    intro s pr out hout
    simp only [phaseDGo] at hout
    split_ifs at hout with h1 h2
    · cases hcall : propagate_move rng fuel { s with rngIdx := s.rngIdx + 1 } c.1 c.2 true 0 with
      | none =>
        rw [hcall] at hout
        exact absurd hout (by simp)
      | some r1 =>
        rw [hcall] at hout
        obtain ⟨s2, b⟩ := r1
        have hq : getF { s with rngIdx := s.rngIdx + 1 } c.1 c.2 ≠ '#' := h1.1
        dsimp only at hout
        exact pres_trans (pres_rng s _)
          (pres_trans (pres_propagate_move rng hrng fuel _ c.1 c.2 true 0 (s2, b) hq hcall)
            (ih s2 true out hout))
    · cases hcall : propagate_stop fuel { s with rngIdx := s.rngIdx + 1 } c.1 c.2 true with
      | none =>
        rw [hcall] at hout
        exact absurd hout (by simp)
      | some s2 =>
        rw [hcall] at hout
        have hq : getF { s with rngIdx := s.rngIdx + 1 } c.1 c.2 ≠ '#' := h1.1
        exact pres_trans (pres_rng s _)
          (pres_trans (pres_propagate_stop fuel _ c.1 c.2 true s2 hq hcall) (ih s2 pr out hout))
    · exact ih s pr out hout

theorem pres_phaseD (rng : Nat → Rat) (hrng : RngOk rng) (fuel : Nat) (s : SimState)
    (out : SimState × Bool) (hout : phaseD rng fuel s = some out) : Pres s out.1 := by
  unfold phaseD at hout
  exact pres_trans (pres_UT s (s.UT + 2)) (pres_phaseDGo rng hrng fuel _ _ _ out hout)

theorem pres_tick (rng : Nat → Rat) (hrng : RngOk rng) (dirs : Nat → Nat → Nat) (fuel : Nat)
    (s : SimState) (out : SimState × Bool) (hout : tick rng dirs fuel s = some out) :
    Pres s out.1 := by
  simp only [tick] at hout
  cases hcall : phaseCloop fuel fuel (vfReset (phaseB dirs (phaseA s))) with
  | none =>
    rw [hcall] at hout
    exact absurd hout (by simp)
  | some s4 =>
    rw [hcall] at hout
    dsimp only at hout
    refine pres_trans (pres_phaseA s) (pres_trans (pres_phaseB dirs (phaseA s))
      (pres_trans (pres_vfReset _) (pres_trans (pres_phaseCloop fuel fuel _ s4 hcall)
        (pres_trans (pres_phaseCredit dirs s4) (pres_phaseD rng hrng fuel _ out hout)))))

theorem pres_runGo (rng : Nat → Rat) (hrng : RngOk rng) (dirs : Nat → Nat → Nat) (fuel : Nat) :
    ∀ (rem : Nat) (s : SimState) (acc : List Snap) (out : SimState × List Snap),
      runGo rng dirs fuel rem s acc = some out → Pres s out.1 := by
  intro rem
  induction rem using Nat.strong_induction_on with
  | _ rem ih =>
    intro s acc out hout
    match rem, hout with
    | 0, hout =>
      simp only [runGo] at hout
      cases hout
      exact pres_refl s
    | r + 1, hout =>
      simp only [runGo] at hout
      cases hcall : tick rng dirs fuel s with
      | none =>
        rw [hcall] at hout
        exact absurd hout (by simp)
      | some r1 =>
        rw [hcall] at hout
        obtain ⟨s1, pr⟩ := r1
        have hp1 : Pres s s1 := pres_tick rng hrng dirs fuel s (s1, pr) hcall
        cases pr with
        | true =>
          cases r with
          | zero =>
            cases hout
            exact hp1
          | succ r2 =>
            exact pres_trans hp1 (ih r2 (by omega) s1 _ out hout)
        | false =>
          exact pres_trans hp1 (ih r (by omega) s1 _ out hout)

theorem pres_runTrace (rng : Nat → Rat) (hrng : RngOk rng) (fuel steps : Nat) (s : SimState)
    (out : SimState × List Snap) (hout : runTrace rng fuel steps s = some out) :
    Pres s out.1 :=
  pres_runGo rng hrng _ fuel steps s [] out hout

theorem wallsOK_init (R C : Nat) (g : Rat) (F : List (List Char)) (rp : List (Char × Rat)) :
    WallsOK (fun x y => decide (gget F x y '#' = '#')) (initState R C g F rp) := by
  intro x y _ _
  constructor
  · show (gget F x y '#' = '#') ↔ _
    exact decide_eq_true_iff.symm
  · intro _
    refine ⟨?_, ?_, ?_, ?_⟩
    · show gget (List.replicate R (List.replicate C (0 : Rat))) x y 0 = 0
      rw [gget_replicate]
      split <;> rfl
    · show gget (List.replicate R (List.replicate C Vec4.zero)) x y Vec4.zero = Vec4.zero
      rw [gget_replicate]
      split <;> rfl
    · show gget (List.replicate R (List.replicate C Vec4.zero)) x y Vec4.zero = Vec4.zero
      rw [gget_replicate]
      split <;> rfl
    · show gget (List.replicate R (List.replicate C (0 : Nat))) x y 0 = 0
      rw [gget_replicate]
      split <;> rfl

/-- C6: wall inviolability.  For every initial configuration, every
uniform draw stream, every fuel bound and every number of steps of run,
whenever the run returns, every cell that is a wall in the initial state
is still a wall and its pressure, velocity vector, velocity-flow vector
and last-use stamp are exactly their initial values: every phase of the
tick and every propagation routine checks for the wall character before
mutating a cell, and the bulk velocity-flow reset rewrites wall entries
with the zero they already hold. -/
theorem c6_wall_inviolability (rng : Nat → Rat) (hrng : RngOk rng) (R C : Nat) (g : Rat)
    (F : List (List Char)) (rp : List (Char × Rat)) (fuel steps : Nat) :
    wallsUntouched (initState R C g F rp) (runTrace rng fuel steps (initState R C g F rp)) := by
  intro r hr x y hx hy hwall
  have hpres := pres_runTrace rng hrng fuel steps _ r hr
  have hW := hpres.2.2.2 (fun a b => decide (gget F a b '#' = '#')) (wallsOK_init R C g F rp)
  have hx2 : x < r.1.rows := by rw [hpres.1]; exact hx
  have hy2 : y < r.1.cols := by rw [hpres.2.1]; exact hy
  have hwb : decide (gget F x y '#' = '#') = true := decide_eq_true hwall
  obtain ⟨hiff, hvals⟩ := hW x y hx2 hy2
  obtain ⟨hp0, hv0, hvf0, hlu0⟩ := hvals hwb
  have hip : getP (initState R C g F rp) x y = 0 := by
    show gget (List.replicate R (List.replicate C (0 : Rat))) x y 0 = 0
    rw [gget_replicate]
    split <;> rfl
  have hiv : getV (initState R C g F rp) x y = Vec4.zero := by
    show gget (List.replicate R (List.replicate C Vec4.zero)) x y Vec4.zero = Vec4.zero
    rw [gget_replicate]
    split <;> rfl
  have hivf : getVF (initState R C g F rp) x y = Vec4.zero := by
    show gget (List.replicate R (List.replicate C Vec4.zero)) x y Vec4.zero = Vec4.zero
    rw [gget_replicate]
    split <;> rfl
  have hilu : getLU (initState R C g F rp) x y = 0 := by
    show gget (List.replicate R (List.replicate C (0 : Nat))) x y 0 = 0
    rw [gget_replicate]
    split <;> rfl
  exact ⟨hiff.mpr hwb, by rw [hp0, hip], by rw [hv0, hiv], by rw [hvf0, hivf],
    by rw [hlu0, hilu]⟩

/-- C6 (witness): wall inviolability instantiated on the one-by-two grid
with a wall and a damping fluid cell, one step of run, fuel 12, and the
constant one-half draw stream. -/
theorem c6_wall_inviolability_witness :
    wallsUntouched wallPairState (runTrace rngHalf 12 1 wallPairState) :=
  c6_wall_inviolability rngHalf
    (fun _ => ⟨by norm_num [rngHalf], by norm_num [rngHalf]⟩) 1 2 1 [['#', '.']] [] 12 1

/- ===== C7: termination of propagate_flow ===== -/

@[simp] theorem rows_vfAdd (s : SimState) (x y i : Nat) (q : Rat) : (vfAdd s x y i q).rows = s.rows := rfl
@[simp] theorem cols_vfAdd (s : SimState) (x y i : Nat) (q : Rat) : (vfAdd s x y i q).cols = s.cols := rfl
@[simp] theorem UT_vfAdd (s : SimState) (x y i : Nat) (q : Rat) : (vfAdd s x y i q).UT = s.UT := rfl

theorem unvisited_vfAdd (s : SimState) (x y i : Nat) (q : Rat) :
    unvisited (vfAdd s x y i q) = unvisited s := rfl

theorem mem_unvisited (s : SimState) (c : Nat × Nat) :
    c ∈ unvisited s ↔ c.1 < s.rows ∧ c.2 < s.cols ∧ getLU s c.1 c.2 + 1 < s.UT := by
  unfold unvisited
  rw [Finset.mem_filter, Finset.mem_product, Finset.mem_range, Finset.mem_range, and_assoc]

theorem luDims_setLU (s : SimState) (x y n : Nat) (h : luDims s) : luDims (setLU s x y n) := by
  refine ⟨?_, ?_⟩
  · show (gset s.last_use x y n).length = s.rows
    unfold gset
    rw [List.length_set]
    exact h.1
  · intro r hr
    have hr2 : r ∈ s.last_use.set x ((s.last_use.getD x []).set y n) := hr
    show r.length = s.cols
    by_cases hx : x < s.last_use.length
    · rcases List.mem_or_eq_of_mem_set hr2 with h1 | h2
      · exact h.2 r h1
      · rw [h2, List.length_set, List.getD_eq_getElem s.last_use [] hx]
        exact h.2 _ (List.getElem_mem hx)
    · rw [List.set_eq_of_length_le (Nat.le_of_not_lt hx)] at hr2
      exact h.2 r hr2

theorem unvisited_setLU_subset (s : SimState) (x y v : Nat) (hv : s.UT ≤ v + 1) :
    unvisited (setLU s x y v) ⊆ unvisited s := by
  intro c hc
  rw [mem_unvisited] at hc ⊢
  simp only [rows_setLU, cols_setLU, UT_setLU] at hc
  obtain ⟨h1, h2, h3⟩ := hc
  refine ⟨h1, h2, ?_⟩
  rw [getLU_setLU] at h3
  split at h3
  · omega
  · exact h3

theorem unvisited_setLU_card_lt (s : SimState) (x y : Nat) (hd : luDims s)
    (hx : x < s.rows) (hy : y < s.cols) (hlu : getLU s x y + 1 < s.UT) :
    (unvisited (setLU s x y (s.UT - 1))).card < (unvisited s).card := by
  apply Finset.card_lt_card
  rw [Finset.ssubset_iff_of_subset (unvisited_setLU_subset s x y (s.UT - 1) (by omega))]
  refine ⟨(x, y), ?_, ?_⟩
  · rw [mem_unvisited]
    exact ⟨hx, hy, hlu⟩
  · rw [mem_unvisited]
    simp only [rows_setLU, cols_setLU, UT_setLU]
    intro hc
    have hlen : x < s.last_use.length := by
      rw [hd.1]
      exact hx
    have hrow : y < (s.last_use.getD x []).length := by
      rw [List.getD_eq_getElem s.last_use [] hlen, hd.2 _ (List.getElem_mem hlen)]
      exact hy
    rw [getLU_setLU, if_pos ⟨rfl, rfl, hlen, hrow⟩] at hc
    omega

theorem shape_refl (s : SimState) : Shape s s :=
  ⟨rfl, rfl, rfl, fun _ h => h, fun h => h⟩

theorem shape_trans {s t u : SimState} (h1 : Shape s t) (h2 : Shape t u) : Shape s u :=
  ⟨h2.1.trans h1.1, h2.2.1.trans h1.2.1, h2.2.2.1.trans h1.2.2.1,
    fun _c hc => h1.2.2.2.1 (h2.2.2.2.1 hc), fun h => h2.2.2.2.2 (h1.2.2.2.2 h)⟩

theorem shape_setLU (s : SimState) (x y v : Nat) (hv : s.UT ≤ v + 1) :
    Shape s (setLU s x y v) :=
  ⟨rfl, rfl, rfl, unvisited_setLU_subset s x y v hv, fun h => luDims_setLU s x y v h⟩

theorem shape_vfAdd (s : SimState) (x y i : Nat) (q : Rat) : Shape s (vfAdd s x y i q) :=
  ⟨rfl, rfl, rfl, fun c hc => by rw [unvisited_vfAdd] at hc; exact hc, fun h => h⟩

theorem pfGo_shape
    (rec : SimState → Nat → Nat → Rat → Option (SimState × Rat × Bool × (Nat × Nat)))
    (hrec : ∀ t a b l out, rec t a b l = some out → Shape t out.1)
    (x y : Nat) (lim : Rat) :
    ∀ (dl : List Nat) (s : SimState) (ret : Rat) (out : SimState × Rat × Bool × (Nat × Nat)),
      pfGo rec x y lim s ret dl = some out → Shape s out.1 := by
  intro dl
  induction dl with
  | nil =>
    intro s ret out hout
    simp only [pfGo] at hout
    cases hout
    exact shape_setLU s x y s.UT (by omega)
  | cons i rest ih =>
    intro s ret out hout
    simp only [pfGo] at hout
    split_ifs at hout with h1 h2 h3 h4 h5
    · exact ih s ret out hout
    · exact ih s ret out hout
    · exact ih s ret out hout
    · cases hout
      exact shape_trans (shape_vfAdd s x y i _) (shape_setLU _ x y _ (by omega))
    · cases hcall : rec s ((x : Int) + (deltaAt i).1).toNat ((y : Int) + (deltaAt i).2).toNat
        (min lim ((getV s x y).get i - (getVF s x y).get i)) with
      | none =>
        rw [hcall] at hout
        exact absurd hout (by simp)
      | some r1 =>
        rw [hcall] at hout
        have hs1 : Shape s r1.1 := hrec s _ _ _ r1 hcall
        dsimp only at hout
        split_ifs at hout with h6
        · cases hout
          exact shape_trans hs1 (shape_trans (shape_vfAdd r1.1 x y i r1.2.1)
            (shape_setLU (vfAdd r1.1 x y i r1.2.1) x y (vfAdd r1.1 x y i r1.2.1).UT
              (by omega)))
        · exact shape_trans hs1 (ih r1.1 _ out hout)
    · exact ih s ret out hout

theorem pf_shape :
    ∀ (fuel : Nat) (s : SimState) (x y : Nat) (lim : Rat)
      (out : SimState × Rat × Bool × (Nat × Nat)),
      propagate_flow fuel s x y lim = some out → Shape s out.1 := by
  intro fuel
  induction fuel with
  | zero =>
    intro s x y lim out hout
    exact absurd hout (by simp [propagate_flow])
  | succ f ih =>
    intro s x y lim out hout
    simp only [propagate_flow] at hout
    have hs1 : Shape s (setLU s x y (s.UT - 1)) := shape_setLU s x y _ (by omega)
    split_ifs at hout with h1
    · cases hout
      exact hs1
    · exact shape_trans hs1
        (pfGo_shape _ (fun t a b l o ho => ih t a b l o ho) x y lim _ _ _ out hout)

theorem pfGo_total (f : Nat)
    (rec : SimState → Nat → Nat → Rat → Option (SimState × Rat × Bool × (Nat × Nat)))
    (hrecShape : ∀ t a b l out, rec t a b l = some out → Shape t out.1)
    (hrecTotal : ∀ t a b l, luDims t → a < t.rows → b < t.cols →
      getLU t a b + 1 < t.UT → (unvisited t).card ≤ f → (rec t a b l).isSome = true)
    (x y : Nat) (lim : Rat) :
    ∀ (dl : List Nat) (s : SimState) (ret : Rat),
      luDims s → (unvisited s).card ≤ f → (pfGo rec x y lim s ret dl).isSome = true := by
  intro dl
  induction dl with
  | nil =>
    intro s ret _ _
    simp [pfGo]
  | cons i rest ih =>
    intro s ret hd hcard
    simp only [pfGo]
    split_ifs with h1 h2 h3 h4 h5
    · exact ih s ret hd hcard
    · exact ih s ret hd hcard
    · exact ih s ret hd hcard
    · simp
    · push_neg at h1
      have hbx : ((x : Int) + (deltaAt i).1).toNat < s.rows := by omega
      have hby : ((y : Int) + (deltaAt i).2).toNat < s.cols := by omega
      have hstamp : getLU s ((x : Int) + (deltaAt i).1).toNat
          ((y : Int) + (deltaAt i).2).toNat + 1 < s.UT := by
        have := h3.2
        omega
      have hsome := hrecTotal s ((x : Int) + (deltaAt i).1).toNat
        ((y : Int) + (deltaAt i).2).toNat
        (min lim ((getV s x y).get i - (getVF s x y).get i)) hd hbx hby hstamp hcard
      rw [Option.isSome_iff_exists] at hsome
      obtain ⟨r1, hcall⟩ := hsome
      rw [hcall]
      obtain ⟨s1, t, prop, e⟩ := r1
      dsimp only
      split_ifs with h6
      · simp
      · have hsh : Shape s s1 := hrecShape s _ _ _ (s1, t, prop, e) hcall
        have hd1 : luDims s1 := hsh.2.2.2.2 hd
        have hc1 : (unvisited s1).card ≤ f :=
          le_trans (Finset.card_le_card hsh.2.2.2.1) hcard
        exact ih s1 _ hd1 hc1
    · exact ih s ret hd hcard

theorem pf_total :
    ∀ (fuel : Nat) (s : SimState) (x y : Nat) (lim : Rat),
      luDims s → x < s.rows → y < s.cols → getLU s x y + 1 < s.UT →
      (unvisited s).card ≤ fuel → (propagate_flow fuel s x y lim).isSome = true := by
  intro fuel
  induction fuel with
  | zero =>
    intro s x y lim hd hx hy hlu hcard
    exfalso
    have hmem : (x, y) ∈ unvisited s := (mem_unvisited s (x, y)).mpr ⟨hx, hy, hlu⟩
    have := Finset.card_pos.mpr ⟨(x, y), hmem⟩
    omega
  | succ f ih =>
    intro s x y lim hd hx hy hlu hcard
    simp only [propagate_flow]
    split_ifs with h1
    · simp
    · have hd1 : luDims (setLU s x y (s.UT - 1)) := luDims_setLU s x y _ hd
      have hc1 : (unvisited (setLU s x y (s.UT - 1))).card ≤ f := by
        have := unvisited_setLU_card_lt s x y hd hx hy hlu
        omega
      exact pfGo_total f _ (fun t a b l o ho => pf_shape f t a b l o ho)
        (fun t a b l hdt ha hb hl hc => ih t a b l hdt ha hb hl hc) x y lim _ _ _ hd1 hc1

/-- C7: propagate_flow terminates on every call made during a phase C
sweep, within fuel R * C + 1.  Each call stamps its cell as claimed on
entry, recurses only into in-bounds non-wall neighbors whose stamp is
below the current sweep, and every recursive call immediately removes its
target from the unclaimed set, so the number of nested calls is bounded
by the number of unclaimed cells, at most R * C; every call examines the
four directions of the table, so one sweep costs O(R * C * 4). -/
theorem c7_propagate_flow_terminates (s : SimState) (x y : Nat) (lim : Rat)
    (hd : luDims s) (hx : x < s.rows) (hy : y < s.cols)
    (hlu : getLU s x y + 1 < s.UT) :
    (propagate_flow (s.rows * s.cols + 1) s x y lim).isSome = true := by
  apply pf_total (s.rows * s.cols + 1) s x y lim hd hx hy hlu
  have hsub : unvisited s ⊆ Finset.range s.rows ×ˢ Finset.range s.cols :=
    Finset.filter_subset _ _
  have hcard := Finset.card_le_card hsub
  rw [Finset.card_product, Finset.card_range, Finset.card_range] at hcard
  omega

/-- C7 (witness): the termination bound instantiated on the one-by-two
grid at the fluid cell, at the start of the first sweep (tick counter 2),
with limit 1 and fuel 1 * 2 + 1 = 3. -/
theorem c7_propagate_flow_terminates_witness :
    (propagate_flow (sweepState.rows * sweepState.cols + 1) sweepState 0 1 1).isSome = true :=
  c7_propagate_flow_terminates sweepState 0 1 1
    (by unfold luDims; exact ⟨by decide, by decide⟩) (by decide) (by decide) (by decide)

/- ===== C8: determinism ===== -/

theorem pfGo_mono
    (rec1 rec2 : SimState → Nat → Nat → Rat → Option (SimState × Rat × Bool × (Nat × Nat)))
    (hrec : ∀ t a b l out, rec1 t a b l = some out → rec2 t a b l = some out)
    (x y : Nat) (lim : Rat) :
    ∀ (dl : List Nat) (s : SimState) (ret : Rat) (out : SimState × Rat × Bool × (Nat × Nat)),
      pfGo rec1 x y lim s ret dl = some out → pfGo rec2 x y lim s ret dl = some out := by
  intro dl
  induction dl with
  | nil =>
    intro s ret out h
    simpa only [pfGo] using h
  | cons i rest ih =>
    intro s ret out h
    simp only [pfGo] at h ⊢
    split_ifs at h ⊢ with h1 h2 h3 h4 h5
    · exact ih s ret out h
    · exact ih s ret out h
    · exact ih s ret out h
    · exact h
    · cases hc1 : rec1 s ((x : Int) + (deltaAt i).1).toNat ((y : Int) + (deltaAt i).2).toNat
          (min lim ((getV s x y).get i - (getVF s x y).get i)) with
      | none =>
        rw [hc1] at h
        exact absurd h (by simp)
      | some r1 =>
        rw [hc1] at h
        rw [hrec s _ _ _ r1 hc1]
        dsimp only at h ⊢
        split_ifs at h ⊢ with h6
        · exact h
        · exact ih r1.1 _ out h
    · exact ih s ret out h

theorem propagate_flow_mono :
    ∀ (f1 f2 : Nat), f1 ≤ f2 → ∀ (s : SimState) (x y : Nat) (lim : Rat)
      (out : SimState × Rat × Bool × (Nat × Nat)),
      propagate_flow f1 s x y lim = some out → propagate_flow f2 s x y lim = some out := by
  intro f1
  induction f1 with
  | zero =>
    intro f2 _ s x y lim out h
    exact absurd h (by simp [propagate_flow])
  | succ f ih =>
    intro f2 hle s x y lim out h
    cases f2 with
    | zero => omega
    | succ f2p =>
      simp only [propagate_flow] at h ⊢
      split_ifs at h ⊢ with h1
      · exact h
      · exact pfGo_mono _ _ (fun t a b l o ho => ih f2p (by omega) t a b l o ho) x y lim
          _ _ _ out h

theorem psGo_mono (rec1 rec2 : SimState → Nat → Nat → Option SimState)
    (hrec : ∀ t a b out, rec1 t a b = some out → rec2 t a b = some out) (x y : Nat) :
    ∀ (dl : List Nat) (s : SimState) (out : SimState),
      psGo rec1 x y s dl = some out → psGo rec2 x y s dl = some out := by
  intro dl
  induction dl with
  | nil =>
    intro s out h
    simpa only [psGo] using h
  | cons i rest ih =>
    intro s out h
    simp only [psGo] at h ⊢
    split_ifs at h ⊢ with h1 h2
    · exact ih s out h
    · exact ih s out h
    · cases hc1 : rec1 s ((x : Int) + (deltaAt i).1).toNat ((y : Int) + (deltaAt i).2).toNat with
      | none =>
        rw [hc1] at h
        exact absurd h (by simp)
      | some s1 =>
        rw [hc1] at h
        rw [hrec s _ _ s1 hc1]
        exact ih s1 out h

theorem propagate_stop_mono :
    ∀ (f1 f2 : Nat), f1 ≤ f2 → ∀ (s : SimState) (x y : Nat) (force : Bool) (out : SimState),
      propagate_stop f1 s x y force = some out → propagate_stop f2 s x y force = some out := by
  intro f1
  induction f1 with
  | zero =>
    intro f2 _ s x y force out h
    exact absurd h (by simp [propagate_stop])
  | succ f ih =>
    intro f2 hle s x y force out h
    cases f2 with
    | zero => omega
    | succ f2p =>
      simp only [propagate_stop] at h ⊢
      split_ifs at h ⊢ with h1
      · exact h
      · exact psGo_mono _ _ (fun t a b o ho => ih f2p (by omega) t a b false o ho) x y
          _ _ out h

theorem pmLoop_mono (rec1 rec2 : SimState → Nat → Nat → Option (SimState × Bool))
    (rng : Nat → Rat) (x y : Nat)
    (hrec : ∀ t a b out, rec1 t a b = some out → rec2 t a b = some out) :
    ∀ (f1 f2 : Nat), f1 ≤ f2 → ∀ (s : SimState) (out : SimState × Bool × Option (Nat × Nat)),
      pmLoop rec1 rng x y f1 s = some out → pmLoop rec2 rng x y f2 s = some out := by
  intro f1
  induction f1 with
  | zero =>
    intro f2 _ s out h
    exact absurd h (by simp [pmLoop])
  | succ f ih =>
    intro f2 hle s out h
    cases f2 with
    | zero => omega
    | succ f2p =>
      simp only [pmLoop] at h ⊢
      split_ifs at h ⊢ with h1 h2 h3
      · exact h
      · exact ih f2p (by omega) _ out h
      · exact h
      · cases hc1 : rec1 { s with rngIdx := s.rngIdx + 1 }
            ((x : Int) + (deltaAt (pmSelect (pmThresholds s x y).1
              (rng s.rngIdx * (pmThresholds s x y).2))).1).toNat
            ((y : Int) + (deltaAt (pmSelect (pmThresholds s x y).1
              (rng s.rngIdx * (pmThresholds s x y).2))).2).toNat with
        | none =>
          rw [hc1] at h
          exact absurd h (by simp)
        | some r2 =>
          rw [hc1] at h
          rw [hrec _ _ _ r2 hc1]
          obtain ⟨s2, b⟩ := r2
          dsimp only at h ⊢
          split_ifs at h ⊢ with h4
          · exact h
          · exact ih f2p (by omega) s2 out h

theorem pmStops_mono (stop1 stop2 : SimState → Nat → Nat → Option SimState)
    (hstop : ∀ t a b out, stop1 t a b = some out → stop2 t a b = some out) (x y : Nat) :
    ∀ (dl : List Nat) (s : SimState) (out : SimState),
      pmStops stop1 x y s dl = some out → pmStops stop2 x y s dl = some out := by
  intro dl
  induction dl with
  | nil =>
    intro s out h
    simpa only [pmStops] using h
  | cons i rest ih =>
    intro s out h
    simp only [pmStops] at h ⊢
    split_ifs at h ⊢ with h1
    · cases hc1 : stop1 s ((x : Int) + (deltaAt i).1).toNat ((y : Int) + (deltaAt i).2).toNat with
      | none =>
        rw [hc1] at h
        exact absurd h (by simp)
      | some s1 =>
        rw [hc1] at h
        rw [hstop s _ _ s1 hc1]
        exact ih s1 out h
    · exact ih s out h

theorem propagate_move_mono (rng : Nat → Rat) :
    ∀ (f1 f2 : Nat), f1 ≤ f2 →
      ∀ (s : SimState) (x y : Nat) (isF : Bool) (depth : Nat) (out : SimState × Bool),
      propagate_move rng f1 s x y isF depth = some out →
      propagate_move rng f2 s x y isF depth = some out := by
  intro f1
  induction f1 with
  | zero =>
    intro f2 _ s x y isF depth out h
    exact absurd h (by simp [propagate_move])
  | succ f ih =>
    intro f2 hle s x y isF depth out h
    cases f2 with
    | zero => omega
    | succ f2p =>
      simp only [propagate_move] at h ⊢
      by_cases h1 : 1000 < depth
      · rw [if_pos h1] at h ⊢
        exact h
      · rw [if_neg h1] at h ⊢
        cases hc1 : pmLoop (fun t a b => propagate_move rng f t a b false (depth + 1)) rng x y f
            (setLU s x y (s.UT - if isF then 1 else 0)) with
        | none =>
          rw [hc1] at h
          exact absurd h (by simp)
        | some out2 =>
          rw [hc1] at h
          rw [pmLoop_mono _ _ rng x y
            (fun t a b o ho => ih f2p (by omega) t a b false (depth + 1) o ho)
            f f2p (by omega) _ out2 hc1]
          obtain ⟨s2, ret, tgt⟩ := out2
          dsimp only at h ⊢
          cases hs1 : pmStops (fun t a b => propagate_stop f t a b false) x y
              (setLU s2 x y s2.UT) [0, 1, 2, 3] with
          | none =>
            rw [hs1] at h
            exact absurd h (by simp)
          | some s4 =>
            rw [hs1] at h
            rw [pmStops_mono _ _
              (fun t a b o ho => propagate_stop_mono f f2p (by omega) t a b false o ho)
              x y _ _ s4 hs1]
            exact h

theorem phaseCsweep_mono (f1 f2 : Nat) (hle : f1 ≤ f2) :
    ∀ (cells : List (Nat × Nat)) (s : SimState) (pr : Bool) (out : SimState × Bool),
      phaseCsweep f1 s pr cells = some out → phaseCsweep f2 s pr cells = some out := by
  intro cells
  induction cells with
  | nil =>
    intro s pr out h
    simpa only [phaseCsweep] using h
  | cons c rest ih =>
    intro s pr out h
    simp only [phaseCsweep] at h ⊢
    split_ifs at h ⊢ with h1
    · cases hc1 : propagate_flow f1 s c.1 c.2 1 with
      | none =>
        rw [hc1] at h
        exact absurd h (by simp)
      | some r1 =>
        rw [hc1] at h
        rw [propagate_flow_mono f1 f2 hle s c.1 c.2 1 r1 hc1]
        obtain ⟨s1, t, pb, e⟩ := r1
        exact ih s1 _ out h
    · exact ih s pr out h

theorem phaseCloop_mono (f1 f2 : Nat) (hle : f1 ≤ f2) :
    ∀ (n1 n2 : Nat), n1 ≤ n2 → ∀ (s : SimState) (out : SimState),
      phaseCloop f1 n1 s = some out → phaseCloop f2 n2 s = some out := by
  intro n1
  induction n1 with
  | zero =>
    intro n2 _ s out h
    exact absurd h (by simp [phaseCloop])
  | succ n ih =>
    intro n2 hn s out h
    cases n2 with
    | zero => omega
    | succ n2p =>
      simp only [phaseCloop] at h ⊢
      cases hc1 : phaseCsweep f1 { s with UT := s.UT + 2 } false
          (cellList { s with UT := s.UT + 2 }.rows { s with UT := s.UT + 2 }.cols) with
      | none =>
        rw [hc1] at h
        exact absurd h (by simp)
      | some r1 =>
        rw [hc1] at h
        rw [phaseCsweep_mono f1 f2 hle _ _ _ r1 hc1]
        obtain ⟨s2, pr⟩ := r1
        cases pr with
        | true => exact ih n2p (by omega) s2 out h
        | false => exact h

theorem phaseDGo_mono (rng : Nat → Rat) (f1 f2 : Nat) (hle : f1 ≤ f2) :
    ∀ (cells : List (Nat × Nat)) (s : SimState) (pr : Bool) (out : SimState × Bool),
      phaseDGo rng f1 s pr cells = some out → phaseDGo rng f2 s pr cells = some out := by
  intro cells
  induction cells with
  | nil =>
    intro s pr out h
    simpa only [phaseDGo] using h
  | cons c rest ih =>
    intro s pr out h
    simp only [phaseDGo] at h ⊢
    split_ifs at h ⊢ with h1 h2
    · cases hc1 : propagate_move rng f1 { s with rngIdx := s.rngIdx + 1 } c.1 c.2 true 0 with
      | none =>
        rw [hc1] at h
        exact absurd h (by simp)
      | some r1 =>
        rw [hc1] at h
        rw [propagate_move_mono rng f1 f2 hle _ c.1 c.2 true 0 r1 hc1]
        obtain ⟨s2, b⟩ := r1
        exact ih s2 true out h
    · cases hc1 : propagate_stop f1 { s with rngIdx := s.rngIdx + 1 } c.1 c.2 true with
      | none =>
        rw [hc1] at h
        exact absurd h (by simp)
      | some s2 =>
        rw [hc1] at h
        rw [propagate_stop_mono f1 f2 hle _ c.1 c.2 true s2 hc1]
        exact ih s2 pr out h
    · exact ih s pr out h

theorem tick_mono (rng : Nat → Rat) (dirs : Nat → Nat → Nat) (f1 f2 : Nat) (hle : f1 ≤ f2)
    (s : SimState) (out : SimState × Bool) (h : tick rng dirs f1 s = some out) :
    tick rng dirs f2 s = some out := by
  simp only [tick] at h ⊢
  cases hc1 : phaseCloop f1 f1 (vfReset (phaseB dirs (phaseA s))) with
  | none =>
    rw [hc1] at h
    exact absurd h (by simp)
  | some s4 =>
    rw [hc1] at h
    rw [phaseCloop_mono f1 f2 hle f1 f2 hle _ s4 hc1]
    dsimp only at h ⊢
    unfold phaseD at h ⊢
    exact phaseDGo_mono rng f1 f2 hle _ _ _ out h

theorem runGo_mono (rng : Nat → Rat) (dirs : Nat → Nat → Nat) (f1 f2 : Nat) (hle : f1 ≤ f2) :
    ∀ (rem : Nat) (s : SimState) (acc : List Snap) (out : SimState × List Snap),
      runGo rng dirs f1 rem s acc = some out → runGo rng dirs f2 rem s acc = some out := by
  intro rem
  induction rem using Nat.strong_induction_on with
  | _ rem ih =>
    intro s acc out h
    match rem, h with
    | 0, h =>
      simpa only [runGo] using h
    | r + 1, h =>
      simp only [runGo] at h ⊢
      cases hc1 : tick rng dirs f1 s with
      | none =>
        rw [hc1] at h
        exact absurd h (by simp)
      | some r1 =>
        rw [hc1] at h
        rw [tick_mono rng dirs f1 f2 hle s r1 hc1]
        obtain ⟨s1, pr⟩ := r1
        dsimp only at h ⊢
        cases pr with
        | true =>
          cases r with
          | zero => exact h
          | succ r2 => exact ih r2 (by omega) s1 _ out h
        | false => exact ih r (by omega) s1 _ out h

theorem runTrace_mono (rng : Nat → Rat) (f1 f2 : Nat) (hle : f1 ≤ f2) (steps : Nat)
    (s : SimState) (out : SimState × List Snap) (h : runTrace rng f1 steps s = some out) :
    runTrace rng f2 steps s = some out :=
  runGo_mono rng _ f1 f2 hle steps s [] out h

/-- C8: determinism.  Runs are parameterised by the single stream of
uniform draws; the constructor seeds its PRNG with the fixed constant
1337 (simulator.h line 173) and starts every engine at position zero of
that stream, so two engines built from the identical grid description,
numeric selectors and step count consume identical draws.  Every phase
of the tick is a pure function of the state and the stream, and the
observable run result does not depend on the recursion resource bound:
whenever two runs of the same configuration return, they return the
identical final state and the identical sequence of (F, P, V)
snapshots. -/
theorem c8_determinism (rng : Nat → Rat) (R C : Nat) (g : Rat) (F : List (List Char))
    (rp : List (Char × Rat)) (steps f1 f2 : Nat)
    (h1 : (runTrace rng f1 steps (initState R C g F rp)).isSome = true)
    (h2 : (runTrace rng f2 steps (initState R C g F rp)).isSome = true) :
    runTrace rng f1 steps (initState R C g F rp) =
      runTrace rng f2 steps (initState R C g F rp) ∧
    (initState R C g F rp).rngIdx = 0 ∧ construction_seed = 1337 := by
  refine ⟨?_, rfl, rfl⟩
  rw [Option.isSome_iff_exists] at h1 h2
  obtain ⟨r1, hr1⟩ := h1
  obtain ⟨r2, hr2⟩ := h2
  rcases le_total f1 f2 with hle | hle
  · rw [hr1, runTrace_mono rng f1 f2 hle steps _ r1 hr1]
  · rw [hr2, runTrace_mono rng f2 f1 hle steps _ r2 hr2]

/-- C8 (witness): two one-step runs of the engine built from the
one-by-two grid, with resource bounds 12 and 20, return and agree. -/
theorem c8_determinism_witness :
    runTrace rngHalf 12 1 wallPairState = runTrace rngHalf 20 1 wallPairState ∧
    wallPairState.rngIdx = 0 ∧ construction_seed = 1337 :=
  c8_determinism rngHalf 1 2 1 [['#', '.']] [] 1 12 20 (by with_unfolding_all rfl)
    (by with_unfolding_all rfl)
